import Mathlib

/-!
droplay: DRO (DOSBox Raw OPL) playback, decode side

A shallow embedding of `src/droplay.c`: the C stdio stream the program reads
from, the register sink `WriteReg`, the two timer callbacks
`Dro1TimerCallback` / `Dro2TimerCallback`, the start-up part of `PlayFile` and
the re-arming timer of `SDL_AddTimer` that drives a callback.

Conventions of the embedding

* a C `int` is an `Int`; a value converted to `unsigned int` / `Uint32` is the
  `Nat` obtained by reduction modulo `2^32`; `|`, `&`, `<<`, `>>` on `int` are
  the two's complement operations `Int.lor`, `Int.land`, `<<<`,
  `Int.shiftRight`;
* a byte of the file is a `Fin 256`; multi-byte fields are read as on a
  little-endian host;
* the synthesis chip is outside the program text, so a call of `WriteReg` is
  recorded as the triple of its arguments, in call order;
* the `for (;;)` / `while (1)` loops are run with an explicit iteration budget;
  `none` means that the budget was exhausted (or, for the v2 decoder, that the
  codemap array was indexed outside its 128 cells).

The file has the definitions first (program, then the spec-side descriptions
and sample data used in statements), then the lemmas and theorems.
-/

namespace Droplay

/-! ## C stdio stream -/

/-- One byte of a file. -/
abbrev Byte := Fin 256

/-- The stdio constant `EOF`. -/
def EOF : Int := -1

/-- A stdio input stream: the bytes of the file, the read position and the
sticky end-of-file indicator. -/
structure FILE where
  data : List Byte
  pos : Nat
  eof : Bool
deriving DecidableEq, Repr

/-- The stdio test `feof`: the end-of-file indicator, which only a read that
found no byte sets. -/
def feof (f : FILE) : Bool := f.eof

/-- The stdio read `fgetc`: the next byte as a non-negative `int` and the
position advanced by one, or `EOF` with the end-of-file indicator set. -/
def fgetc (f : FILE) : Int × FILE :=
  match f.data[f.pos]? with
  | some b => ((b.val : Int), { f with pos := f.pos + 1 })
  | none => (EOF, { f with eof := true })

/-- The stdio block read `fread(buf, 1, n, f)`: the bytes obtained (at most `n`)
and the stream after it; a short read sets the end-of-file indicator. -/
def fread (n : Nat) (f : FILE) : List Byte × FILE :=
  let got := (f.data.drop f.pos).take n
  (got, { f with pos := f.pos + got.length, eof := f.eof || decide (got.length < n) })

/-- The stdio call `fseek(f, off, SEEK_SET)`: sets the position and clears the
end-of-file indicator. -/
def fseek (f : FILE) (off : Nat) : FILE :=
  { f with pos := off, eof := false }

/-- The stream that `fopen(filename, "rb")` yields for a file with the given
contents. -/
def fopen (bytes : List Byte) : FILE :=
  { data := bytes, pos := 0, eof := false }

/-- The bytes of the stream not yet read. -/
def FILE.rest (f : FILE) : List Byte := f.data.drop f.pos

/-! ## C integer conversions -/

/-- Conversion of an `int` to `unsigned int` / `Uint32`. -/
def toUint32 (x : Int) : Nat := (x % 4294967296).toNat

/-! ## Register sink -/

/-- The arguments of one call of `WriteReg`. -/
structure RegWrite where
  bank : Int
  reg : Nat
  val : Nat
deriving DecidableEq, Repr

/-- The register sink `WriteReg(int bank, unsigned int reg, unsigned int val)`:
the call is appended to the log of writes sent to the chip. -/
def WriteReg (bank : Int) (reg val : Nat) (log : List RegWrite) : List RegWrite :=
  log ++ [{ bank := bank, reg := reg, val := val }]

/-! ## Session data -/

/-- The 128-cell array `uint8_t codemap[128]`. -/
structure Codemap where
  cells : List Byte
  size_eq : cells.length = 128
deriving DecidableEq

/-- The C struct `Dro2Header`. -/
structure Dro2Header where
  lengthPairs : Nat
  lengthMs : Nat
  hardwareType : Byte
  format : Byte
  compression : Byte
  shortDelayCode : Byte
  longDelayCode : Byte
  codemapLength : Byte
  codemap : Codemap
deriving DecidableEq

/-- The C struct `timer_data`. -/
structure timer_data where
  running : Int
  fstream : FILE
  dro2Header : Dro2Header
  dro1Bank : Int
deriving DecidableEq

/-- What one pass through the body of a decoder loop does: it either executes a
`return` with a value, or falls through to the next iteration. Both carry the
session data and the log of writes. -/
inductive Pass where
  | ret : Nat → timer_data → List RegWrite → Pass
  | next : timer_data → List RegWrite → Pass

/-- The result of one timer callback: returned interval, session data after it,
writes emitted during it. -/
abbrev Tick := Nat × timer_data × List RegWrite

/-! ## Version 1 decoder -/

/-- The body of the `for (;;)` loop of `Dro1TimerCallback`. -/
def Dro1Body (td : timer_data) (log : List RegWrite) : Pass :=
  if feof td.fstream then
    .ret 0 { td with running := 0 } log
  else
    let r1 := fgetc td.fstream
    let r2 := fgetc r1.2
    let reg := r1.1
    let val := r2.1
    if reg = 0 then
      .ret (toUint32 val) { td with fstream := r2.2 } log
    else if reg = 1 then
      let r3 := fgetc r2.2
      .ret (toUint32 (Int.lor val (r3.1 <<< (8 : Int)))) { td with fstream := r3.2 } log
    else if reg = 2 then
      .next { td with fstream := r2.2, dro1Bank := 0 } log
    else if reg = 3 then
      .next { td with fstream := r2.2, dro1Bank := 1 } log
    else if reg = 4 then
      let r3 := fgetc r2.2
      .next { td with fstream := r3.2 }
        (WriteReg td.dro1Bank (toUint32 val) (toUint32 r3.1) log)
    else
      .next { td with fstream := r2.2 }
        (WriteReg td.dro1Bank (toUint32 reg) (toUint32 val) log)

/-- The `for (;;)` loop of `Dro1TimerCallback`, run for at most `fuel`
iterations. -/
def Dro1Loop : Nat → timer_data → List RegWrite → Option Tick
  | 0, _, _ => none
  | fuel + 1, td, log =>
    match Dro1Body td log with
    | .ret d td1 log1 => some (d, td1, log1)
    | .next td1 log1 => Dro1Loop fuel td1 log1

/-- The timer callback `Dro1TimerCallback` (its `interval` argument is unused
by the code). -/
def Dro1TimerCallback (fuel : Nat) (td : timer_data) : Option Tick :=
  if td.running = 0 then some (0, td, [])
  else Dro1Loop fuel td []

/-! ## Version 2 decoder -/

/-- The body of the `while (1)` loop of `Dro2TimerCallback`; `none` when the
codemap array is indexed outside its cells. -/
def Dro2Body (td : timer_data) (log : List RegWrite) : Option Pass :=
  if feof td.fstream then
    some (.ret 0 { td with running := 0 } log)
  else
    let r1 := fgetc td.fstream
    let r2 := fgetc r1.2
    let code := r1.1
    let val := r2.1
    if code = (td.dro2Header.shortDelayCode.val : Int) then
      some (.ret (toUint32 (val + 1)) { td with fstream := r2.2 } log)
    else if code = (td.dro2Header.longDelayCode.val : Int) then
      some (.ret (toUint32 ((val + 1) * 256)) { td with fstream := r2.2 } log)
    else
      match td.dro2Header.codemap.cells[(Int.land code 127).toNat]? with
      | none => none
      | some reg =>
        some (.next { td with fstream := r2.2 }
          (WriteReg (Int.shiftRight code 7) (toUint32 (reg.val : Int)) (toUint32 val) log))

/-- The `while (1)` loop of `Dro2TimerCallback`, run for at most `fuel`
iterations. -/
def Dro2Loop : Nat → timer_data → List RegWrite → Option Tick
  | 0, _, _ => none
  | fuel + 1, td, log =>
    match Dro2Body td log with
    | none => none
    | some (.ret d td1 log1) => some (d, td1, log1)
    | some (.next td1 log1) => Dro2Loop fuel td1 log1

/-- The timer callback `Dro2TimerCallback` (its `interval` argument is unused
by the code). -/
def Dro2TimerCallback (fuel : Nat) (td : timer_data) : Option Tick :=
  Dro2Loop fuel td []

/-! ## Session start -/

/-- The C string `HEADER_STRING = "DBRAWOPL"`, with its terminating NUL. -/
def HEADER_STRING : List Byte := [0x44, 0x42, 0x52, 0x41, 0x57, 0x4F, 0x50, 0x4C, 0]

/-- The libc comparison `strncmp(s1, s2, n)`: at most `n` characters are
compared, the comparison stops at the first difference or after a NUL common to
both; the end of a list stands for a NUL. -/
def strncmp : Nat → List Byte → List Byte → Int
  | 0, _, _ => 0
  | n + 1, s1, s2 =>
    let a := s1.headD 0
    let b := s2.headD 0
    if a ≠ b then (a.val : Int) - (b.val : Int)
    else if a = 0 then 0
    else strncmp n s1.tail s2.tail

/-- A `uint16_t` read from two bytes of the file on a little-endian host. -/
def u16le (b0 b1 : Byte) : Nat := b0.val + 256 * b1.val

/-- A `uint32_t` read from four bytes of the file on a little-endian host. -/
def u32le (b0 b1 b2 b3 : Byte) : Nat :=
  b0.val + 256 * b1.val + 65536 * b2.val + 16777216 * b3.val

/-- Storing the bytes of a read at the start of the codemap array: cell `i`
receives byte `i` of the read when there is one and keeps its content
otherwise. -/
def Codemap.store (cm : Codemap) (bytes : List Byte) : Codemap :=
  { cells := cm.cells.enum.map (fun ic => (bytes[ic.1]?).getD ic.2)
    size_eq := by simp [cm.size_eq] }

/-- The diagnostics with which `PlayFile` calls `exit(EXIT_FAILURE)`. -/
inductive Failure where
  /-- "Failed to read file header" -/
  | readHeader
  /-- "Invalid file format" -/
  | invalidFormat
  /-- "Failed to read file version" -/
  | readVersion
  /-- "Could not read DROv2 header" -/
  | readDro2Header
  /-- "Too many codemap entries (%i)" -/
  | tooManyCodemapEntries (n : Nat)
  /-- "Could not read codemap" -/
  | readCodemap
  /-- "Unrecognized DRO file version "%i.%i"" -/
  | unrecognizedVersion (major minor : Nat)
deriving DecidableEq, Repr

/-- The callback that `PlayFile` hands to `SDL_AddTimer`. -/
inductive Decoder where
  | dro1
  | dro2
deriving DecidableEq, Repr

/-- How the start-up part of `PlayFile` ends: the process exits with a
diagnostic, or a timer is armed (interval 0) with a callback and the session
data. -/
inductive Start where
  | exit : Failure → Start
  | timer : Decoder → timer_data → Start
deriving DecidableEq

/-- The start-up part of `PlayFile` (from `fopen` to `SDL_AddTimer`) for an
existing file with the given contents. `td0` is the content of the local
variable `timer_data` before anything is assigned to it. -/
def PlayFile (bytes : List Byte) (td0 : timer_data) : Start :=
  let r1 := fread 8 (fopen bytes)
  if r1.1.length < 8 then .exit .readHeader
  else if strncmp 8 r1.1 HEADER_STRING ≠ 0 then .exit .invalidFormat
  else
    let r2 := fread 4 r1.2
    match r2.1 with
    | [v0, v1, v2, v3] =>
      let major := u16le v0 v1
      let minor := u16le v2 v3
      if major = 0 ∧ minor = 1 then
        .timer .dro1 { td0 with fstream := fseek r2.2 28, running := 1, dro1Bank := 0 }
      else if major = 2 ∧ minor = 0 then
        let r3 := fread 14 r2.2
        match r3.1 with
        | [p0, p1, p2, p3, m0, m1, m2, m3, hw, fmt, comp, sd, ld, len] =>
          if len.val > 128 then .exit (.tooManyCodemapEntries len.val)
          else
            let r4 := fread len.val r3.2
            if r4.1.length ≠ len.val then .exit .readCodemap
            else
              .timer .dro2
                { td0 with
                  fstream := r4.2
                  running := 1
                  dro2Header :=
                    { lengthPairs := u32le p0 p1 p2 p3
                      lengthMs := u32le m0 m1 m2 m3
                      hardwareType := hw
                      format := fmt
                      compression := comp
                      shortDelayCode := sd
                      longDelayCode := ld
                      codemapLength := len
                      codemap := td0.dro2Header.codemap.store r4.1 } }
        | _ => .exit .readDro2Header
      else .exit (.unrecognizedVersion major minor)
    | _ => .exit .readVersion

/-! ## The timer driving a decoder -/

/-- One firing of the timer: the writes the callback emitted and the interval
it returned. -/
abbrev Firing := List RegWrite × Nat

/-- The timer that `SDL_AddTimer` arms: the callback fires, and fires again
after the interval it returns unless that interval is 0, which removes the
timer. At most `n` firings are run. The result lists the firings in order, the
last one being the one that returned 0, with the session data left behind. -/
def timerRun (cb : timer_data → Option Tick) : Nat → timer_data → Option (List Firing × timer_data)
  | 0, _ => none
  | n + 1, td =>
    match cb td with
    | none => none
    | some (d, td1, ws) =>
      if d = 0 then some ([(ws, 0)], td1)
      else (timerRun cb n td1).map (fun r => ((ws, d) :: r.1, r.2))

/-- All writes of a run, in order. -/
def writesOf (fs : List Firing) : List RegWrite := (fs.map (fun f => f.1)).flatten

/-- A session of the v1 decoder as `PlayFile` starts it on an event stream: the
stream is at its first byte, `running` is 1 and the bank is 0. -/
def dro1Session (stream : List Byte) (td0 : timer_data) : timer_data :=
  { td0 with fstream := fopen stream, running := 1, dro1Bank := 0 }

/-! ## Stream invariant, sample data and spec-side descriptions -/

/-- The end-of-file indicator of a stream is set only when no byte is left. -/
def FILE.wf (f : FILE) : Prop := f.eof = true → f.rest = []

instance (f : FILE) : Decidable f.wf := by unfold FILE.wf; infer_instance

/-- The stream after `n` more bytes have been read from it. -/
def FILE.advance (f : FILE) (n : Nat) : FILE := { f with pos := f.pos + n }

/-- A codemap array filled with zeros. -/
def Codemap.zero : Codemap := ⟨List.replicate 128 0, by simp⟩

/-- A sample v2 header: short delay code 0, long delay code 1, empty codemap. -/
def sampleHeader : Dro2Header := ⟨0, 0, 0, 0, 0, 0, 1, 0, Codemap.zero⟩

/-- Sample content of a `timer_data` variable to which nothing was assigned
yet. -/
def sampleData : timer_data := ⟨77, ⟨[], 5, true⟩, sampleHeader, 9⟩

/-- The write that the spec associates with a v2 byte pair `(code, value)`:
bank `code >> 7`, register `codemap[code & 0x7F]`, value `value`. -/
def dro2Write (hdr : Dro2Header) (p : Byte × Byte) : RegWrite :=
  { bank := ((p.1.val >>> 7 : Nat) : Int)
    reg := (hdr.codemap.cells.get ⟨p.1.val &&& 0x7F, by
      rw [hdr.codemap.size_eq]; exact Nat.lt_succ_of_le Nat.and_le_right⟩).val
    val := p.2.val }

/-- The bytes of a list of byte pairs, in stream order. -/
def pairBytes : List (Byte × Byte) → List Byte
  | [] => []
  | p :: ps => p.1 :: p.2 :: pairBytes ps

/-- Prefixing the writes of a tick result. -/
def Tick.prepend (ws : List RegWrite) (r : Tick) : Tick := (r.1, r.2.1, ws ++ r.2.2)

/-- The 8-character tag that a DRO file starts with. -/
def magicTag : List Byte := HEADER_STRING.take 8

/-- What a call of `PlayFile` does up to the removal of its timer: how the
start-up part ended, the firings of the timer (none when the process exited at
start-up) and the session data left when the timer was removed. -/
structure Playback where
  start : Start
  firings : List Firing
  last : Option timer_data
deriving DecidableEq

/-- `PlayFile` on an existing file: start-up, then the timer armed by
`SDL_AddTimer` drives the selected callback, for at most `n` firings of at most
`fuel` loop iterations each. -/
def playback (n fuel : Nat) (bytes : List Byte) (td0 : timer_data) : Option Playback :=
  match PlayFile bytes td0 with
  | .exit e => some { start := .exit e, firings := [], last := none }
  | .timer .dro1 td =>
    (timerRun (Dro1TimerCallback fuel) n td).map
      (fun r => { start := .timer .dro1 td, firings := r.1, last := some r.2 })
  | .timer .dro2 td =>
    (timerRun (Dro2TimerCallback fuel) n td).map
      (fun r => { start := .timer .dro2 td, firings := r.1, last := some r.2 })

/-- The stream of `PlayFile` once the magic tag and the version fields are
read. -/
def afterVersion (bytes : List Byte) : FILE := { data := bytes, pos := 12, eof := false }

/-- A small v2 file with the given compression byte: short delay code 0x7A, long
delay code 0x7B, a codemap of three registers, then two register events and a
short delay. -/
def demoFile (comp : Byte) : List Byte :=
  magicTag ++ [2, 0, 0, 0] ++ [3, 0, 0, 0, 5, 0, 0, 0, 0, 0, comp, 0x7A, 0x7B, 3]
    ++ [0x20, 0x40, 0xB0] ++ [0x02, 0x11, 0x81, 0x22, 0x7A, 0x04]

/-- The header that `PlayFile` reads from `demoFile comp` into `sampleData`. -/
def demoHeader (comp : Byte) : Dro2Header :=
  { lengthPairs := 3, lengthMs := 5, hardwareType := 0, format := 0, compression := comp
    shortDelayCode := 0x7A, longDelayCode := 0x7B, codemapLength := 3
    codemap := Codemap.zero.store [0x20, 0x40, 0xB0] }

/-- A session of the v2 decoder on an event stream, with the given header. -/
def dro2Session (hdr : Dro2Header) (stream : List Byte) (td0 : timer_data) : timer_data :=
  { td0 with fstream := fopen stream, running := 1, dro2Header := hdr }

/-- Exactly `k` successive firings of a callback, whatever intervals it returns:
the firings in order and the session data after the last one. -/
def fireTimes (cb : timer_data → Option Tick) : Nat → timer_data → Option (List Firing × timer_data)
  | 0, td => some ([], td)
  | k + 1, td =>
    match cb td with
    | none => none
    | some (d, td1, ws) => (fireTimes cb k td1).map (fun r => ((ws, d) :: r.1, r.2))

/-- The reference decoding of a v1 event stream, in the words of the spec: codes
0x00 (with its value byte) and 0x01 (with its two following bytes) are delays
and emit nothing, codes 0x02 / 0x03 (with their value byte) select bank 0 / 1,
code 0x04 followed by `r` and `v` emits `(bank, r, v)`, any other code `c`
followed by `v` emits `(bank, c, v)`; decoding ends where no complete event is
left. -/
def refDecodeV1 : Int → List Byte → List RegWrite
  | bank, c :: v :: rest =>
    if c.val = 0 then refDecodeV1 bank rest
    else if c.val = 1 then
      match rest with
      | _ :: rest1 => refDecodeV1 bank rest1
      | [] => []
    else if c.val = 2 then refDecodeV1 0 rest
    else if c.val = 3 then refDecodeV1 1 rest
    else if c.val = 4 then
      match rest with
      | w :: rest1 => { bank := bank, reg := v.val, val := w.val } :: refDecodeV1 bank rest1
      | [] => []
    else { bank := bank, reg := c.val, val := v.val } :: refDecodeV1 bank rest
  | _, _ => []

/-- A valid v1 event stream: a sequence of complete events (two bytes, three for
the codes 0x01 and 0x04). -/
def validV1 : List Byte → Bool
  | [] => true
  | c :: _ :: rest =>
    if c.val = 1 ∨ c.val = 4 then
      match rest with
      | _ :: rest1 => validV1 rest1
      | [] => false
    else validV1 rest
  | _ => false

/-- The bank selected once a v1 event stream has been decoded from the given
bank. -/
def bankAfterV1 : Int → List Byte → Int
  | bank, c :: _ :: rest =>
    if c.val = 2 then bankAfterV1 0 rest
    else if c.val = 3 then bankAfterV1 1 rest
    else if c.val = 1 ∨ c.val = 4 then
      match rest with
      | _ :: rest1 => bankAfterV1 bank rest1
      | [] => bank
    else bankAfterV1 bank rest
  | bank, _ => bank

/-- No delay event of the v1 stream has the delay 0. -/
def positiveDelaysV1 : List Byte → Bool
  | c :: v :: rest =>
    if c.val = 0 then decide (v.val ≠ 0) && positiveDelaysV1 rest
    else if c.val = 1 then
      match rest with
      | w :: rest1 => decide (v.val + 256 * w.val ≠ 0) && positiveDelaysV1 rest1
      | [] => true
    else if c.val = 4 then
      match rest with
      | _ :: rest1 => positiveDelaysV1 rest1
      | [] => true
    else positiveDelaysV1 rest
  | _ => true

/-- The rest of a v1 playback seen from inside a firing: the loop of
`Dro1TimerCallback` goes on with the writes `log` already emitted in this
firing and `left` iterations of its budget left, then the timer re-arms as in
`timerRun`, for at most `n` more firings. -/
def dro1Continue (left fuel n : Nat) (td : timer_data) (log : List RegWrite) :
    Option (List Firing × timer_data) :=
  match Dro1Loop left td log with
  | none => none
  | some (d, td1, ws) =>
    if d = 0 then some ([(ws, 0)], td1)
    else (timerRun (Dro1TimerCallback fuel) n td1).map (fun r => ((ws, d) :: r.1, r.2))

/-- The write that `Dro1TimerCallback` emits from the two `EOF` results of
`fgetc`. -/
def eofWrite (bank : Int) : RegWrite := { bank := bank, reg := 4294967295, val := 4294967295 }

/-- A bound on the number of loop iterations a tick can still make on a stream:
0 once the end-of-file indicator is set, else one more than the number of
unread bytes. -/
def FILE.budget (f : FILE) : Nat := if f.eof then 0 else (f.data.length - f.pos) + 1

/-- Content of a `timer_data` variable to which nothing was assigned yet, with a
codemap array full of the byte 0xEE. -/
def garbageData : timer_data :=
  ⟨77, ⟨[], 5, true⟩, ⟨0, 0, 0, 0, 0, 0, 1, 0, ⟨List.replicate 128 0xEE, by simp⟩⟩, 9⟩

/-- A v2 file that ends right after its codemap of three registers. -/
def codemapOnlyFile : List Byte :=
  magicTag ++ [2, 0, 0, 0] ++ [0, 0, 0, 0, 0, 0, 0, 0, 0, 0, 0, 0x7A, 0x7B, 3]
    ++ [0x20, 0x40, 0xB0]

/-- The session that `PlayFile` starts on `codemapOnlyFile` from `garbageData`. -/
def codemapOnlySession : timer_data :=
  { garbageData with
    fstream := { data := codemapOnlyFile, pos := 29, eof := false }
    running := 1
    dro2Header :=
      { lengthPairs := 0, lengthMs := 0, hardwareType := 0, format := 0, compression := 0
        shortDelayCode := 0x7A, longDelayCode := 0x7B, codemapLength := 3
        codemap := garbageData.dro2Header.codemap.store [0x20, 0x40, 0xB0] } }

/-- The synthetic file of the end-to-end example: the tag, the version bytes
`00 00 00 00`, 28 reserved bytes, then `A5 00 00 05` and `00 0A`. -/
def exampleFile (reserved : List Byte) : List Byte :=
  magicTag ++ 0 :: 0 :: 0 :: 0 :: (reserved ++ [0xA5, 0x00, 0x00, 0x05, 0x00, 0x0A])

/-- A v1 file: the tag, version 0.1, 16 more header bytes, then `A5 00 00 05`
and `00 0A`. -/
def exampleFileV1 : List Byte :=
  magicTag ++ 0 :: 0 :: 1 :: 0 :: (List.replicate 16 0 ++ [0xA5, 0x00, 0x00, 0x05, 0x00, 0x0A])

/-- A v2 file whose codemap has three entries and whose first event has the
code 0x05. -/
def outOfMapFile : List Byte :=
  magicTag ++ [2, 0, 0, 0] ++ [0, 0, 0, 0, 0, 0, 0, 0, 0, 0, 0, 0x7A, 0x7B, 3]
    ++ [0x20, 0x40, 0xB0] ++ [0x05, 0x11, 0x7A, 0x04]

/-- The session that `PlayFile` starts on `outOfMapFile` from `garbageData`. -/
def outOfMapSession : timer_data :=
  { codemapOnlySession with fstream := { data := outOfMapFile, pos := 29, eof := false } }

/-- The session data that a pass through a loop body leaves. -/
def Pass.data : Pass → timer_data
  | .ret _ td _ => td
  | .next td _ => td

/-- The stream left behind by reading the last byte and then hitting the end of
the data. -/
def FILE.atEnd (f : FILE) : FILE := { f with pos := f.pos + 1, eof := true }

/-! ## Stream lemmas -/

theorem fgetc_of_rest {f : FILE} {b : Byte} {tl : List Byte} (h : f.rest = b :: tl) :
    fgetc f = ((b.val : Int), { f with pos := f.pos + 1 }) ∧
      ({ f with pos := f.pos + 1 } : FILE).rest = tl := by
  unfold FILE.rest at h
  have h1 : f.data[f.pos]? = some b := by
    have := congrArg (fun l => l[0]?) h
    simpa using this
  have h2 : f.data.drop (f.pos + 1) = tl := by
    have := congrArg List.tail h
    simpa using this
  refine ⟨?_, ?_⟩
  · simp [fgetc, h1]
  · simpa [FILE.rest] using h2

theorem fgetc_of_rest_nil {f : FILE} (h : f.rest = []) :
    fgetc f = (EOF, { f with eof := true }) := by
  unfold FILE.rest at h
  have h1 : f.data[f.pos]? = none := by
    have := congrArg (fun l => l[0]?) h
    simpa using this
  simp [fgetc, h1]

theorem eof_false_of_rest {f : FILE} {b : Byte} {tl : List Byte} (hwf : f.wf)
    (h : f.rest = b :: tl) : f.eof = false := by
  cases he : f.eof with
  | false => rfl
  | true => simp [hwf he] at h

theorem toUint32_natCast (n : Nat) (h : n < 4294967296) : toUint32 (n : Int) = n := by
  unfold toUint32
  omega

theorem toUint32_byte (b : Byte) : toUint32 (b.val : Int) = b.val :=
  toUint32_natCast b.val (by have := b.isLt; omega)

theorem byte_lor_shift (b0 b1 : Byte) : b0.val ||| (b1.val <<< 8) = b0.val + 256 * b1.val := by
  rw [Nat.shiftLeft_eq, Nat.mul_comm, Nat.add_comm, Nat.lor_comm]
  exact (Nat.mul_add_lt_is_or b0.isLt b1.val).symm

theorem lor_shift_bytes (b0 b1 : Byte) :
    Int.lor (b0.val : Int) ((b1.val : Int) <<< (8 : Int)) = ((b0.val + 256 * b1.val : Nat) : Int) := by
  have h8 : ((b1.val : Int) <<< (8 : Int)) = ((b1.val <<< 8 : Nat) : Int) :=
    Int.shiftLeft_coe_nat b1.val 8
  rw [h8, ← byte_lor_shift]
  rfl

theorem fgetc2_of_rest {f : FILE} {a b : Byte} {tl : List Byte} (h : f.rest = a :: b :: tl) :
    fgetc f = ((a.val : Int), f.advance 1) ∧ fgetc (f.advance 1) = ((b.val : Int), f.advance 2) ∧
      (f.advance 2).rest = tl := by
  obtain ⟨h1, h2⟩ := fgetc_of_rest h
  obtain ⟨h3, h4⟩ := fgetc_of_rest h2
  exact ⟨h1, h3, h4⟩

theorem fgetc3_of_rest {f : FILE} {a b c : Byte} {tl : List Byte}
    (h : f.rest = a :: b :: c :: tl) :
    fgetc f = ((a.val : Int), f.advance 1) ∧ fgetc (f.advance 1) = ((b.val : Int), f.advance 2) ∧
      fgetc (f.advance 2) = ((c.val : Int), f.advance 3) ∧ (f.advance 3).rest = tl := by
  obtain ⟨h1, h2, h3⟩ := fgetc2_of_rest h
  obtain ⟨h4, h5⟩ := fgetc_of_rest h3
  exact ⟨h1, h2, h4, h5⟩

/-! ## Delay conversion -/

/-- C3: a v1 tick on a running session whose next bytes are `0x00, b` returns the
delay `b`; one whose next bytes are `0x01, b0, b1` returns the delay
`b0 | (b1 << 8) = b0 + 256 * b1`. In both cases the tick emits no write and
leaves the stream just behind the delay event (2, respectively 3, bytes
read). -/
theorem dro1_delay_conversion (td : timer_data) (fuel : Nat) (b b0 b1 : Byte) (tl : List Byte)
    (hrun : td.running ≠ 0) (hwf : td.fstream.wf) :
    (td.fstream.rest = 0 :: b :: tl →
      Dro1TimerCallback (fuel + 1) td
        = some (b.val, { td with fstream := td.fstream.advance 2 }, [])) ∧
    (td.fstream.rest = 1 :: b0 :: b1 :: tl →
      Dro1TimerCallback (fuel + 1) td
        = some (b0.val + 256 * b1.val, { td with fstream := td.fstream.advance 3 }, []) ∧
      b0.val + 256 * b1.val = b0.val ||| (b1.val <<< 8)) := by
  constructor
  · intro h
    have he := eof_false_of_rest hwf h
    obtain ⟨h1, h2, -⟩ := fgetc2_of_rest h
    simp [Dro1TimerCallback, hrun, Dro1Loop, Dro1Body, feof, he, h1, h2, toUint32_byte]
  · intro h
    have he := eof_false_of_rest hwf h
    obtain ⟨h1, h2, h3, -⟩ := fgetc3_of_rest h
    refine ⟨?_, ?_⟩
    · have hlt : b0.val + 256 * b1.val < 4294967296 := by
        have := b0.isLt
        have := b1.isLt
        omega
      simp [Dro1TimerCallback, hrun, Dro1Loop, Dro1Body, feof, he, h1, h2, h3, lor_shift_bytes]
      exact_mod_cast toUint32_natCast _ hlt
    · exact (byte_lor_shift b0 b1).symm

theorem dro1_delay_conversion_witness :
    Dro1TimerCallback 1 (dro1Session [0, 7, 9] sampleData)
        = some (7, { dro1Session [0, 7, 9] sampleData with fstream := ⟨[0, 7, 9], 2, false⟩ }, []) ∧
    Dro1TimerCallback 1 (dro1Session [1, 0x34, 0x12] sampleData)
        = some (0x1234,
            { dro1Session [1, 0x34, 0x12] sampleData with fstream := ⟨[1, 0x34, 0x12], 3, false⟩ }, []) :=
  ⟨(dro1_delay_conversion (dro1Session [0, 7, 9] sampleData) 0 7 0 0 [9] (by decide) (by decide)).1
      (by decide),
   ((dro1_delay_conversion (dro1Session [1, 0x34, 0x12] sampleData) 0 0 0x34 0x12 [] (by decide)
      (by decide)).2 (by decide)).1⟩

/-- C4: a v2 tick whose next pair is `(shortDelayCode, v)` returns the delay
`v + 1` (between 1 and 256); one whose next pair is `(longDelayCode, v)`, with
`longDelayCode` different from `shortDelayCode`, returns `(v + 1) * 256`
(between 256 and 65536). In both cases the tick emits no write and leaves the
stream just behind the pair. -/
theorem dro2_delay_conversion (td : timer_data) (fuel : Nat) (v : Byte) (tl : List Byte)
    (hwf : td.fstream.wf) :
    (td.fstream.rest = td.dro2Header.shortDelayCode :: v :: tl →
      Dro2TimerCallback (fuel + 1) td
        = some (v.val + 1, { td with fstream := td.fstream.advance 2 }, []) ∧
      1 ≤ v.val + 1 ∧ v.val + 1 ≤ 256) ∧
    (td.dro2Header.longDelayCode ≠ td.dro2Header.shortDelayCode →
      td.fstream.rest = td.dro2Header.longDelayCode :: v :: tl →
      Dro2TimerCallback (fuel + 1) td
        = some ((v.val + 1) * 256, { td with fstream := td.fstream.advance 2 }, []) ∧
      256 ≤ (v.val + 1) * 256 ∧ (v.val + 1) * 256 ≤ 65536) := by
  have hv := v.isLt
  constructor
  · intro h
    have he := eof_false_of_rest hwf h
    obtain ⟨h1, h2, -⟩ := fgetc2_of_rest h
    refine ⟨?_, by omega, by omega⟩
    simp [Dro2TimerCallback, Dro2Loop, Dro2Body, feof, he, h1, h2]
    exact_mod_cast toUint32_natCast (v.val + 1) (by omega)
  · intro hne h
    have he := eof_false_of_rest hwf h
    obtain ⟨h1, h2, -⟩ := fgetc2_of_rest h
    have hne2 : ¬ ((td.dro2Header.longDelayCode.val : Int) = (td.dro2Header.shortDelayCode.val : Int)) := by
      intro hc
      exact hne (Fin.ext (by exact_mod_cast hc))
    refine ⟨?_, by omega, by omega⟩
    simp [Dro2TimerCallback, Dro2Loop, Dro2Body, feof, he, h1, h2, hne2]
    exact_mod_cast toUint32_natCast ((v.val + 1) * 256) (by omega)

theorem dro2_delay_conversion_witness :
    Dro2TimerCallback 1 (dro2Session (demoHeader 0) [0x7A, 9, 3] sampleData)
      = some (10, { dro2Session (demoHeader 0) [0x7A, 9, 3] sampleData with
                     fstream := ⟨[0x7A, 9, 3], 2, false⟩ }, []) ∧
    Dro2TimerCallback 1 (dro2Session (demoHeader 0) [0x7B, 255] sampleData)
      = some (65536, { dro2Session (demoHeader 0) [0x7B, 255] sampleData with
                        fstream := ⟨[0x7B, 255], 2, false⟩ }, []) :=
  ⟨((dro2_delay_conversion (dro2Session (demoHeader 0) [0x7A, 9, 3] sampleData) 0 9 [3]
      (by decide)).1 (by decide)).1,
   ((dro2_delay_conversion (dro2Session (demoHeader 0) [0x7B, 255] sampleData) 0 255 []
      (by decide)).2 (by decide) (by decide)).1⟩

/-! ## Version 2 writes -/

theorem advance_advance (f : FILE) (m n : Nat) : (f.advance m).advance n = f.advance (m + n) := by
  simp [FILE.advance, Nat.add_assoc]

theorem advance_eof (f : FILE) (n : Nat) : (f.advance n).eof = f.eof := rfl

theorem dro2Body_write (td : timer_data) (log : List RegWrite) (c v : Byte) (tl : List Byte)
    (he : td.fstream.eof = false) (h : td.fstream.rest = c :: v :: tl)
    (hs : c ≠ td.dro2Header.shortDelayCode) (hl : c ≠ td.dro2Header.longDelayCode) :
    Dro2Body td log = some (.next { td with fstream := td.fstream.advance 2 }
      (log ++ [dro2Write td.dro2Header (c, v)])) := by
  obtain ⟨h1, h2, -⟩ := fgetc2_of_rest h
  have hs2 : ¬ ((c.val : Int) = (td.dro2Header.shortDelayCode.val : Int)) := by
    intro hc
    exact hs (Fin.ext (by exact_mod_cast hc))
  have hl2 : ¬ ((c.val : Int) = (td.dro2Header.longDelayCode.val : Int)) := by
    intro hc
    exact hl (Fin.ext (by exact_mod_cast hc))
  have hidx : (Int.land (c.val : Int) 127).toNat = c.val &&& 0x7F := rfl
  have hlt : c.val &&& 0x7F < td.dro2Header.codemap.cells.length := by
    rw [td.dro2Header.codemap.size_eq]; exact Nat.lt_succ_of_le Nat.and_le_right
  have hget : td.dro2Header.codemap.cells[(Int.land (c.val : Int) 127).toNat]?
      = some (td.dro2Header.codemap.cells.get ⟨c.val &&& 0x7F, hlt⟩) := by
    rw [hidx]
    exact List.getElem?_eq_getElem hlt
  have hsh : Int.shiftRight (c.val : Int) 7 = ((c.val >>> 7 : Nat) : Int) := rfl
  simp only [Dro2Body, feof, he, h1, h2, hs2, hl2, hget, hsh, toUint32_byte]
  simp [WriteReg, dro2Write]

theorem dro2Loop_writes (hdr : Dro2Header) (ps : List (Byte × Byte))
    (hps : ∀ p ∈ ps, p.1 ≠ hdr.shortDelayCode ∧ p.1 ≠ hdr.longDelayCode) :
    ∀ (td : timer_data) (log : List RegWrite) (fuel : Nat) (tl : List Byte),
      td.dro2Header = hdr → td.fstream.eof = false → td.fstream.rest = pairBytes ps ++ tl →
      Dro2Loop (ps.length + fuel) td log
        = Dro2Loop fuel { td with fstream := td.fstream.advance (2 * ps.length) }
            (log ++ ps.map (dro2Write hdr)) := by
  induction ps with
  | nil =>
    intro td log fuel tl _ _ _
    simp [FILE.advance]
  | cons p ps ih =>
    intro td log fuel tl hh he h
    have hp := hps p (List.mem_cons_self _ _)
    have h' : td.fstream.rest = p.1 :: p.2 :: (pairBytes ps ++ tl) := by simpa [pairBytes] using h
    have hb := dro2Body_write td log p.1 p.2 _ he h' (hh ▸ hp.1) (hh ▸ hp.2)
    obtain ⟨-, -, hrest⟩ := fgetc2_of_rest h'
    have hfuel : (p :: ps).length + fuel = (ps.length + fuel) + 1 := by simp; omega
    rw [hfuel, Dro2Loop, hb]
    simp only
    rw [ih (fun q hq => hps q (List.mem_cons_of_mem _ hq))
      { td with fstream := td.fstream.advance 2 } _ fuel tl hh he hrest]
    simp [advance_advance, hh, List.length_cons, Nat.mul_add, Nat.add_comm]

theorem dro2Loop_log (fuel : Nat) : ∀ (td : timer_data) (log : List RegWrite),
    Dro2Loop fuel td log = (Dro2Loop fuel td []).map (Tick.prepend log) := by
  induction fuel with
  | zero => intro td log; rfl
  | succ n ih =>
    intro td log
    by_cases he : td.fstream.eof = true
    · simp [Dro2Loop, Dro2Body, feof, he, Tick.prepend]
    · simp only [Dro2Loop, Dro2Body, feof, he]
      simp only [Bool.false_eq_true, ↓reduceIte]
      split_ifs
      · simp [Tick.prepend]
      · simp [Tick.prepend]
      · cases hc : td.dro2Header.codemap.cells[(Int.land (fgetc td.fstream).1 127).toNat]? with
        | none => simp
        | some reg =>
          simp only
          rw [ih _ (WriteReg _ _ _ log), ih _ (WriteReg _ _ _ [])]
          simp only [WriteReg, Option.map_map, List.nil_append]
          congr 1
          funext x
          simp [Tick.prepend]

/-- C2: a v2 tick that meets the byte pairs `ps`, none of whose codes is the short
or the long delay code, emits for each pair `(code, value)` the write with bank
`code >> 7`, register `codemap[code & 0x7F]` and value `value`, in stream order,
before whatever the rest of the tick emits; each such bank is 0 or 1. -/
theorem dro2_write_mapping (td : timer_data) (fuel : Nat) (ps : List (Byte × Byte))
    (tl : List Byte) (hwf : td.fstream.wf)
    (hps : ∀ p ∈ ps, p.1 ≠ td.dro2Header.shortDelayCode ∧ p.1 ≠ td.dro2Header.longDelayCode)
    (h : td.fstream.rest = pairBytes ps ++ tl) :
    Dro2TimerCallback (ps.length + fuel) td
      = (Dro2TimerCallback fuel { td with fstream := td.fstream.advance (2 * ps.length) }).map
          (Tick.prepend (ps.map (dro2Write td.dro2Header))) ∧
    ∀ p ∈ ps, (dro2Write td.dro2Header p).bank = 0 ∨ (dro2Write td.dro2Header p).bank = 1 := by
  constructor
  · cases ps with
    | nil =>
      have h0 : td.fstream.advance 0 = td.fstream := rfl
      have hid : Tick.prepend [] = id := by funext r; rfl
      simp [Dro2TimerCallback, h0, hid]
    | cons p ps =>
      have he : td.fstream.eof = false :=
        eof_false_of_rest hwf (show td.fstream.rest = p.1 :: (p.2 :: pairBytes ps ++ tl) from by
          simpa [pairBytes] using h)
      unfold Dro2TimerCallback
      rw [dro2Loop_writes td.dro2Header (p :: ps) hps td [] fuel tl rfl he h, dro2Loop_log]
      simp
  · intro p _
    have hp := p.1.isLt
    have : p.1.val >>> 7 = 0 ∨ p.1.val >>> 7 = 1 := by
      rw [Nat.shiftRight_eq_div_pow]
      omega
    rcases this with h0 | h1
    · left; simp [dro2Write, h0]
    · right; simp [dro2Write, h1]

theorem dro2_write_mapping_witness :
    Dro2TimerCallback 3
        (dro2Session (demoHeader 0) [0x02, 0x11, 0x81, 0x22, 0x7A, 0x04] sampleData)
      = some (5, { dro2Session (demoHeader 0) [0x02, 0x11, 0x81, 0x22, 0x7A, 0x04] sampleData with
                    fstream := ⟨[0x02, 0x11, 0x81, 0x22, 0x7A, 0x04], 6, false⟩ },
              [⟨0, 0xB0, 0x11⟩, ⟨1, 0x40, 0x22⟩]) :=
  ((dro2_write_mapping
      (dro2Session (demoHeader 0) [0x02, 0x11, 0x81, 0x22, 0x7A, 0x04] sampleData) 1
      [(0x02, 0x11), (0x81, 0x22)] [0x7A, 0x04] (by decide)
      (by
        intro p hp
        simp only [List.mem_cons, List.mem_singleton, List.not_mem_nil, or_false] at hp
        rcases hp with rfl | rfl <;> decide) rfl).1).trans
    (by decide)

/-! ## Session start: magic tag, version, v2 header -/

theorem strncmp_eq_zero_iff (n : Nat) : ∀ (s1 s2 : List Byte), n ≤ s1.length → n ≤ s2.length →
    (∀ b ∈ s2.take n, b ≠ 0) → (strncmp n s1 s2 = 0 ↔ s1.take n = s2.take n) := by
  induction n with
  | zero => intro s1 s2 _ _ _; simp [strncmp]
  | succ n ih =>
    intro s1 s2 h1 h2 hnz
    match s1, s2, h1, h2, hnz with
    | a :: s1, b :: s2, h1, h2, hnz =>
      have hb : b ≠ 0 := hnz b (by simp)
      have ih' := ih s1 s2 (by simpa using h1) (by simpa using h2)
        (fun c hc => hnz c (by simp [hc]))
      by_cases hab : a = b
      · subst hab
        simp [strncmp, hb, ih']
      · have hv : (a.val : Int) - (b.val : Int) ≠ 0 := by
          intro hc
          apply hab
          apply Fin.ext
          omega
        simp [strncmp, hab, hv]

theorem fread_fopen (n : Nat) (bytes : List Byte) :
    fread n (fopen bytes)
      = (bytes.take n, { data := bytes, pos := (bytes.take n).length,
                         eof := decide ((bytes.take n).length < n) }) := by
  simp [fread, fopen]

/-- C5: for a file of at least 8 bytes, `PlayFile` gets past the magic check exactly
when the first 8 bytes equal the tag "DBRAWOPL" byte for byte (a prefix holding a
zero byte included); with any other 8-byte prefix it exits with "Invalid file
format", no timer is armed and no callback fires, so no register is written. -/
theorem magic_check (bytes : List Byte) (td0 : timer_data) (n fuel : Nat)
    (hlen : 8 ≤ bytes.length) :
    (PlayFile bytes td0 ≠ .exit .invalidFormat ↔ bytes.take 8 = magicTag) ∧
    (bytes.take 8 ≠ magicTag →
      playback n fuel bytes td0
        = some { start := .exit .invalidFormat, firings := [], last := none }) := by
  have hcmp : strncmp 8 (bytes.take 8) HEADER_STRING = 0 ↔ bytes.take 8 = magicTag := by
    have hnz : ∀ b ∈ HEADER_STRING.take 8, b ≠ 0 := by
      intro b hb
      simp only [HEADER_STRING, List.take_succ_cons, List.take_zero, List.mem_cons,
        List.mem_singleton, List.not_mem_nil, or_false] at hb
      rcases hb with h | h | h | h | h | h | h | h <;> subst h <;> decide
    have := strncmp_eq_zero_iff 8 (bytes.take 8) HEADER_STRING (by simp; omega)
      (by simp [HEADER_STRING]) hnz
    simpa [magicTag, List.take_take] using this
  have hl : ¬ (bytes.take 8).length < 8 := by simp; omega
  have key : bytes.take 8 ≠ magicTag → PlayFile bytes td0 = .exit .invalidFormat := by
    intro hne
    have : ¬ strncmp 8 (bytes.take 8) HEADER_STRING = 0 := fun hc => hne (hcmp.1 hc)
    simp only [PlayFile, fread_fopen]
    simp [this]
    omega
  refine ⟨⟨fun h => ?_, fun h => ?_⟩, fun hne => ?_⟩
  · by_contra hne
    exact h (key hne)
  · have h0 : strncmp 8 (bytes.take 8) HEADER_STRING = 0 := hcmp.2 h
    simp only [PlayFile, fread_fopen, h0, hl]
    simp only [ne_eq, not_true_eq_false, ↓reduceIte]
    repeat' split
    all_goals simp
  · simp [playback, key hne]

theorem magic_check_witness :
    playback 3 3 [0x44, 0x42, 0x52, 0x41, 0x57, 0x4F, 0x50, 0x00, 0x4C, 0, 0, 1, 0] sampleData
      = some { start := .exit .invalidFormat, firings := [], last := none } :=
  (magic_check [0x44, 0x42, 0x52, 0x41, 0x57, 0x4F, 0x50, 0x00, 0x4C, 0, 0, 1, 0] sampleData 3 3
    (by decide)).2 (by decide)

theorem fread_full (f : FILE) (got tl : List Byte) (n : Nat) (hn : got.length = n)
    (h : f.rest = got ++ tl) (he : f.eof = false) :
    fread n f = (got, f.advance n) ∧ (f.advance n).rest = tl ∧ (f.advance n).eof = false := by
  unfold FILE.rest at h
  have hg : (f.data.drop f.pos).take n = got := by
    rw [h, ← hn]; simp
  refine ⟨?_, ?_, he⟩
  · simp [fread, hg, hn, he, FILE.advance]
  · have : f.data.drop (f.pos + n) = tl := by
      rw [← List.drop_drop, h, ← hn]; simp
    simpa [FILE.rest, FILE.advance] using this

theorem fread_magic (t : List Byte) :
    fread 8 (fopen (magicTag ++ t)) = (magicTag, (fopen (magicTag ++ t)).advance 8) ∧
      ((fopen (magicTag ++ t)).advance 8).rest = t ∧
      ((fopen (magicTag ++ t)).advance 8).eof = false :=
  fread_full _ _ _ 8 (by simp [magicTag, HEADER_STRING]) (by simp [FILE.rest, fopen]) rfl

theorem strncmp_magic : strncmp 8 magicTag HEADER_STRING = 0 := by
  simp [strncmp, magicTag, HEADER_STRING]

theorem magicTag_length : magicTag.length = 8 := rfl

theorem PlayFile_after_version (td0 : timer_data) (v0 v1 v2 v3 : Byte) (rest : List Byte) :
    PlayFile (magicTag ++ v0 :: v1 :: v2 :: v3 :: rest) td0 =
      if u16le v0 v1 = 0 ∧ u16le v2 v3 = 1 then
        .timer .dro1 { td0 with
          fstream := fseek (afterVersion (magicTag ++ v0 :: v1 :: v2 :: v3 :: rest)) 28
          running := 1, dro1Bank := 0 }
      else if u16le v0 v1 = 2 ∧ u16le v2 v3 = 0 then
        match (fread 14 (afterVersion (magicTag ++ v0 :: v1 :: v2 :: v3 :: rest))).1 with
        | [p0, p1, p2, p3, m0, m1, m2, m3, hw, fmt, comp, sd, ld, len] =>
          if len.val > 128 then .exit (.tooManyCodemapEntries len.val)
          else if (fread len.val (fread 14 (afterVersion (magicTag ++ v0 :: v1 :: v2 :: v3 :: rest))).2).1.length ≠ len.val then
            .exit .readCodemap
          else
            .timer .dro2
              { td0 with
                fstream := (fread len.val (fread 14 (afterVersion (magicTag ++ v0 :: v1 :: v2 :: v3 :: rest))).2).2
                running := 1
                dro2Header :=
                  { lengthPairs := u32le p0 p1 p2 p3
                    lengthMs := u32le m0 m1 m2 m3
                    hardwareType := hw
                    format := fmt
                    compression := comp
                    shortDelayCode := sd
                    longDelayCode := ld
                    codemapLength := len
                    codemap := td0.dro2Header.codemap.store (fread len.val (fread 14 (afterVersion (magicTag ++ v0 :: v1 :: v2 :: v3 :: rest))).2).1 } }
        | _ => .exit .readDro2Header
      else .exit (.unrecognizedVersion (u16le v0 v1) (u16le v2 v3)) := by
  obtain ⟨h8, hr8, he8⟩ := fread_magic (v0 :: v1 :: v2 :: v3 :: rest)
  obtain ⟨h4, -, -⟩ := fread_full _ [v0, v1, v2, v3] rest 4 rfl
    (by simpa using hr8) he8
  have hadv : ((fopen (magicTag ++ v0 :: v1 :: v2 :: v3 :: rest)).advance 8).advance 4
      = afterVersion (magicTag ++ v0 :: v1 :: v2 :: v3 :: rest) := rfl
  rw [hadv] at h4
  simp only [PlayFile, h8, h4, strncmp_magic, magicTag_length]
  simp

theorem store_cells (cm : Codemap) (bytes : List Byte) (h : bytes.length ≤ 128) :
    (cm.store bytes).cells = bytes ++ cm.cells.drop bytes.length := by
  apply List.ext_getElem?
  intro i
  simp only [Codemap.store, List.getElem?_map, List.getElem?_enum]
  by_cases hi : i < bytes.length
  · have hc : i < cm.cells.length := by rw [cm.size_eq]; omega
    rw [List.getElem?_append_left hi]
    simp [List.getElem?_eq_getElem hi, List.getElem?_eq_getElem hc]
  · have hi' : bytes.length ≤ i := Nat.le_of_not_lt hi
    rw [List.getElem?_append_right hi', List.getElem?_drop]
    have hb : bytes[i]? = none := List.getElem?_eq_none hi'
    have : bytes.length + (i - bytes.length) = i := by omega
    rw [this]
    cases hc : cm.cells[i]? <;> simp [hb]

theorem fread_fst (n : Nat) (f : FILE) : (fread n f).1 = (f.data.drop f.pos).take n := rfl

theorem fread_pos (n : Nat) (f : FILE) : (fread n f).2.pos = f.pos + (fread n f).1.length := rfl

theorem PlayFile_dro2_inv (bytes : List Byte) (td0 td : timer_data)
    (h : PlayFile bytes td0 = .timer .dro2 td) :
    td.dro2Header.codemapLength.val ≤ 128 ∧
    td.fstream.pos = 26 + td.dro2Header.codemapLength.val ∧
    td.dro2Header.codemap.cells.take td.dro2Header.codemapLength.val
      = (bytes.drop 26).take td.dro2Header.codemapLength.val ∧
    td.dro2Header.codemap.cells.drop td.dro2Header.codemapLength.val
      = td0.dro2Header.codemap.cells.drop td.dro2Header.codemapLength.val := by
  unfold PlayFile at h
  simp only at h
  repeat' split at h
  all_goals try (simp at h; done)
  rename_i h8 _ _ _ _ _ _ h4 _ _ _ _ _ _ _ _ _ _ _ _ _ _ _ _ len h14 hle hlen
  have e8 : (fread 8 (fopen bytes)).1.length = 8 := by
    have : (fread 8 (fopen bytes)).1.length ≤ 8 := by simp [fread]
    omega
  have e4 := congrArg List.length h4
  have e14 := congrArg List.length h14
  have el := not_not.1 hlen
  simp only [List.length_cons, List.length_nil] at e4 e14
  have p8 : (fread 8 (fopen bytes)).2.pos = 8 := by
    rw [fread_pos, e8]; rfl
  have p4 : (fread 4 (fread 8 (fopen bytes)).2).2.pos = 12 := by
    rw [fread_pos, e4, p8]
  have p14 : (fread 14 (fread 4 (fread 8 (fopen bytes)).2).2).2.pos = 26 := by
    rw [fread_pos, e14, p4]
  have hgot : (fread len.val (fread 14 (fread 4 (fread 8 (fopen bytes)).2).2).2).1
      = (bytes.drop 26).take len.val := by
    rw [fread_fst, p14]; rfl
  have hst := store_cells td0.dro2Header.codemap _ (by rw [el]; omega :
    (fread len.val (fread 14 (fread 4 (fread 8 (fopen bytes)).2).2).2).1.length ≤ 128)
  injection h with _ htd
  subst htd
  refine ⟨by simpa using hle, ?_, ?_, ?_⟩
  · show (fread len.val _).2.pos = 26 + len.val
    rw [fread_pos, el, p14]
  · show List.take len.val (Codemap.store _ _).cells = _
    rw [hst, ← hgot]
    exact List.take_left' el
  · show List.drop len.val (Codemap.store _ _).cells = _
    rw [hst, List.drop_left' el, el]

theorem fread_rest (n : Nat) (f : FILE) (he : f.eof = false) (hn : n ≤ f.rest.length) :
    fread n f = (f.rest.take n, f.advance n) := by
  have hl : (f.rest.take n).length = n := by simp [hn]
  unfold FILE.rest at hl hn
  simp [fread, FILE.rest, FILE.advance, hl, he]

theorem fread_short (n : Nat) (f : FILE) (hn : f.rest.length < n) :
    (fread n f).1.length ≠ n := by
  unfold FILE.rest at hn
  simp only [fread, List.length_take]
  omega

theorem PlayFile_dro2_header (td0 : timer_data)
    (p0 p1 p2 p3 m0 m1 m2 m3 hw fmt comp sd ld len : Byte) (rest : List Byte) :
    PlayFile (magicTag ++ 2 :: 0 :: 0 :: 0 ::
        p0 :: p1 :: p2 :: p3 :: m0 :: m1 :: m2 :: m3 :: hw :: fmt :: comp :: sd :: ld :: len :: rest) td0 =
      if len.val > 128 then .exit (.tooManyCodemapEntries len.val)
      else if rest.length < len.val then .exit .readCodemap
      else
        .timer .dro2
          { td0 with
            fstream :=
              { data := magicTag ++ 2 :: 0 :: 0 :: 0 :: p0 :: p1 :: p2 :: p3 :: m0 :: m1 :: m2 ::
                  m3 :: hw :: fmt :: comp :: sd :: ld :: len :: rest
                pos := 26 + len.val, eof := false }
            running := 1
            dro2Header :=
              { lengthPairs := u32le p0 p1 p2 p3
                lengthMs := u32le m0 m1 m2 m3
                hardwareType := hw
                format := fmt
                compression := comp
                shortDelayCode := sd
                longDelayCode := ld
                codemapLength := len
                codemap := td0.dro2Header.codemap.store (rest.take len.val) } } := by
  rw [PlayFile_after_version]
  have hv : u16le 2 0 = 2 ∧ u16le 0 0 = 0 := by decide
  have hv' : ¬ (u16le 2 0 = 0 ∧ u16le 0 0 = 1) := by decide
  rw [if_neg hv', if_pos hv]
  obtain ⟨h14, hr14, he14⟩ := fread_full
    (afterVersion (magicTag ++ 2 :: 0 :: 0 :: 0 ::
        p0 :: p1 :: p2 :: p3 :: m0 :: m1 :: m2 :: m3 :: hw :: fmt :: comp :: sd :: ld :: len :: rest))
    [p0, p1, p2, p3, m0, m1, m2, m3, hw, fmt, comp, sd, ld, len] rest 14 rfl
    (by simp [FILE.rest, afterVersion, magicTag, HEADER_STRING]) rfl
  rw [h14]
  simp only
  by_cases hbig : len.val > 128
  · simp [hbig]
  · rw [if_neg hbig, if_neg hbig]
    by_cases hsh : rest.length < len.val
    · have := fread_short len.val _ (by rw [hr14]; exact hsh)
      rw [if_pos this, if_pos hsh]
    · have hfr := fread_rest len.val _ he14 (by rw [hr14]; omega)
      rw [hr14] at hfr
      rw [if_neg hsh, hfr]
      have hl : (rest.take len.val).length = len.val := by simp; omega
      simp [hl, FILE.advance, afterVersion, Nat.add_comm]

/-- C7: a v2 file whose header has `codemapLength > 128` makes `PlayFile` exit with
"Too many codemap entries" before any callback fires; and whenever `PlayFile`
arms the `Dro2TimerCallback` timer, `codemapLength ≤ 128`, exactly
`codemapLength` bytes were read behind the 26 bytes of tag, version and header,
they fill the first `codemapLength` cells of the codemap array, and the other
cells are untouched. -/
theorem codemap_bound (td0 : timer_data)
    (p0 p1 p2 p3 m0 m1 m2 m3 hw fmt comp sd ld len : Byte) (rest : List Byte) (n fuel : Nat) :
    (len.val > 128 →
      playback n fuel (magicTag ++ 2 :: 0 :: 0 :: 0 :: p0 :: p1 :: p2 :: p3 :: m0 :: m1 :: m2 ::
          m3 :: hw :: fmt :: comp :: sd :: ld :: len :: rest) td0
        = some { start := .exit (.tooManyCodemapEntries len.val), firings := [], last := none }) ∧
    (∀ (bytes : List Byte) (td : timer_data), PlayFile bytes td0 = .timer .dro2 td →
      td.dro2Header.codemapLength.val ≤ 128 ∧
      td.fstream.pos = 26 + td.dro2Header.codemapLength.val ∧
      td.dro2Header.codemap.cells.take td.dro2Header.codemapLength.val
        = (bytes.drop 26).take td.dro2Header.codemapLength.val ∧
      td.dro2Header.codemap.cells.drop td.dro2Header.codemapLength.val
        = td0.dro2Header.codemap.cells.drop td.dro2Header.codemapLength.val) := by
  refine ⟨fun hbig => ?_, fun bytes td h => PlayFile_dro2_inv bytes td0 td h⟩
  simp [playback, PlayFile_dro2_header, hbig]

theorem codemap_bound_witness :
    playback 4 4 (magicTag ++ [2, 0, 0, 0, 0, 0, 0, 0, 0, 0, 0, 0, 0, 0, 0, 0x7A, 0x7B, 129]
        ++ List.replicate 129 7 ++ [1, 2]) sampleData
      = some { start := .exit (.tooManyCodemapEntries 129), firings := [], last := none } ∧
    (demoHeader 0).codemapLength.val ≤ 128 ∧
    (demoHeader 0).codemap.cells.take 3 = [0x20, 0x40, 0xB0] :=
  ⟨(codemap_bound sampleData 0 0 0 0 0 0 0 0 0 0 0 0x7A 0x7B 129
      (List.replicate 129 7 ++ [1, 2]) 4 4).1 (by decide),
   ((codemap_bound sampleData 0 0 0 0 0 0 0 0 0 0 0 0 0 0 [] 0 0).2 (demoFile 0)
      { sampleData with
        fstream := { data := demoFile 0, pos := 29, eof := false }
        running := 1, dro2Header := demoHeader 0 } (by decide)).1,
   ((codemap_bound sampleData 0 0 0 0 0 0 0 0 0 0 0 0 0 0 [] 0 0).2 (demoFile 0)
      { sampleData with
        fstream := { data := demoFile 0, pos := 29, eof := false }
        running := 1, dro2Header := demoHeader 0 } (by decide)).2.2.1⟩

/-- C8, counterexample: the v2 file `demoFile 1` has compression byte 1, yet
`PlayFile` arms the `Dro2TimerCallback` timer on it and the first firing writes
two registers. -/
theorem compression_nonzero_accepted :
    (demoHeader 1).compression = 1 ∧
    PlayFile (demoFile 1) sampleData
      = .timer .dro2 { sampleData with
          fstream := { data := demoFile 1, pos := 29, eof := false }
          running := 1, dro2Header := demoHeader 1 } ∧
    Dro2TimerCallback 3 { sampleData with
          fstream := { data := demoFile 1, pos := 29, eof := false }
          running := 1, dro2Header := demoHeader 1 }
      = some (5, { sampleData with
          fstream := { data := demoFile 1, pos := 35, eof := false }
          running := 1, dro2Header := demoHeader 1 },
        [⟨0, 0xB0, 0x11⟩, ⟨1, 0x40, 0x22⟩]) :=
  ⟨rfl, by decide, by set_option maxRecDepth 4096 in decide⟩

/-- C8, amended: the compression byte of a v2 header is stored and not checked: a
v2 file with a complete 14-byte header, `codemapLength ≤ 128` and at least
`codemapLength` bytes behind the header has its `Dro2TimerCallback` timer armed
whatever the compression byte is. -/
theorem compression_not_checked (td0 : timer_data)
    (p0 p1 p2 p3 m0 m1 m2 m3 hw fmt comp sd ld len : Byte) (rest : List Byte)
    (hlen : len.val ≤ 128) (hrest : len.val ≤ rest.length) :
    PlayFile (magicTag ++ 2 :: 0 :: 0 :: 0 :: p0 :: p1 :: p2 :: p3 :: m0 :: m1 :: m2 :: m3 ::
        hw :: fmt :: comp :: sd :: ld :: len :: rest) td0 =
      .timer .dro2
        { td0 with
          fstream :=
            { data := magicTag ++ 2 :: 0 :: 0 :: 0 :: p0 :: p1 :: p2 :: p3 :: m0 :: m1 :: m2 ::
                m3 :: hw :: fmt :: comp :: sd :: ld :: len :: rest
              pos := 26 + len.val, eof := false }
          running := 1
          dro2Header :=
            { lengthPairs := u32le p0 p1 p2 p3
              lengthMs := u32le m0 m1 m2 m3
              hardwareType := hw
              format := fmt
              compression := comp
              shortDelayCode := sd
              longDelayCode := ld
              codemapLength := len
              codemap := td0.dro2Header.codemap.store (rest.take len.val) } } := by
  rw [PlayFile_dro2_header, if_neg (by omega), if_neg (by omega)]

theorem compression_not_checked_witness :
    PlayFile (magicTag ++ [2, 0, 0, 0, 0, 0, 0, 0, 0, 0, 0, 0, 0, 0, 255, 0x7A, 0x7B, 1, 0x20, 5, 6])
        sampleData =
      .timer .dro2
        { sampleData with
          fstream :=
            { data := magicTag ++ [2, 0, 0, 0, 0, 0, 0, 0, 0, 0, 0, 0, 0, 0, 255, 0x7A, 0x7B, 1,
                0x20, 5, 6]
              pos := 27, eof := false }
          running := 1
          dro2Header :=
            { lengthPairs := 0, lengthMs := 0, hardwareType := 0, format := 0
              compression := 255, shortDelayCode := 0x7A, longDelayCode := 0x7B
              codemapLength := 1
              codemap := Codemap.zero.store [0x20] } } :=
  compression_not_checked sampleData 0 0 0 0 0 0 0 0 0 0 255 0x7A 0x7B 1 [0x20, 5, 6]
    (by decide) (by decide)

/-- C9, the code at the failing inputs: on a running v1 session whose stream is
`00 00` the tick returns 0 and leaves `running` at 1; on a running v2 session
whose stream is the lone short delay code the tick returns 0 and leaves
`running` at 1. -/
theorem tick_zero_while_running :
    Dro1TimerCallback 1 (dro1Session [0, 0] sampleData)
      = some (0, { dro1Session [0, 0] sampleData with
                    fstream := { data := [0, 0], pos := 2, eof := false } }, []) ∧
    (dro1Session [0, 0] sampleData).running = 1 ∧
    Dro2TimerCallback 1 (dro2Session (demoHeader 0) [0x7A] sampleData)
      = some (0, { dro2Session (demoHeader 0) [0x7A] sampleData with
                    fstream := { data := [0x7A], pos := 1, eof := true } }, []) ∧
    (dro2Session (demoHeader 0) [0x7A] sampleData).running = 1 := by
  decide

/-! ## End of stream -/

theorem fgetc_cases (f : FILE) :
    (∃ b : Byte, fgetc f = ((b.val : Int), f.advance 1)) ∨
      fgetc f = (EOF, { f with eof := true }) := by
  unfold fgetc
  cases h : f.data[f.pos]? with
  | none => right; rfl
  | some b => left; exact ⟨b, rfl⟩

theorem fgetc_eof_flag (f : FILE) (h : (fgetc f).1 = -1) : (fgetc f).2.eof = true := by
  rcases fgetc_cases f with ⟨b, hb⟩ | hb
  · rw [hb] at h
    have : (0 : Int) ≤ (b.val : Int) := Int.natCast_nonneg _
    simp only at h
    omega
  · rw [hb]

theorem fgetc_range (f : FILE) : (fgetc f).1 = -1 ∨ (0 ≤ (fgetc f).1 ∧ (fgetc f).1 < 256) := by
  rcases fgetc_cases f with ⟨b, hb⟩ | hb
  · right
    rw [hb]
    have := b.isLt
    simp only
    omega
  · left; rw [hb]; rfl

theorem dro2Body_zero_eof (td : timer_data) (log : List RegWrite) (td1 : timer_data)
    (ws : List RegWrite) (h : Dro2Body td log = some (.ret 0 td1 ws)) :
    td1.fstream.eof = true := by
  unfold Dro2Body at h
  by_cases he : feof td.fstream = true
  · rw [if_pos he] at h
    simp only [Option.some.injEq, Pass.ret.injEq] at h
    rw [← h.2.1]
    exact he
  · rw [if_neg he] at h
    have hr := fgetc_range (fgetc td.fstream).2
    have hf := fgetc_eof_flag (fgetc td.fstream).2
    simp only at h
    by_cases h1 : (fgetc td.fstream).1 = (td.dro2Header.shortDelayCode.val : Int)
    · rw [if_pos h1] at h
      simp only [Option.some.injEq, Pass.ret.injEq] at h
      obtain ⟨h0, htd, -⟩ := h
      rw [← htd]
      apply hf
      unfold toUint32 at h0
      omega
    · rw [if_neg h1] at h
      by_cases h2 : (fgetc td.fstream).1 = (td.dro2Header.longDelayCode.val : Int)
      · rw [if_pos h2] at h
        simp only [Option.some.injEq, Pass.ret.injEq] at h
        obtain ⟨h0, htd, -⟩ := h
        rw [← htd]
        apply hf
        unfold toUint32 at h0
        omega
      · rw [if_neg h2] at h
        split at h <;> simp at h

theorem dro2Loop_zero_eof (fuel : Nat) : ∀ (td : timer_data) (log : List RegWrite)
    (td1 : timer_data) (ws : List RegWrite),
    Dro2Loop fuel td log = some (0, td1, ws) → td1.fstream.eof = true := by
  induction fuel with
  | zero => intro td log td1 ws h; simp [Dro2Loop] at h
  | succ n ih =>
    intro td log td1 ws h
    unfold Dro2Loop at h
    cases hB : Dro2Body td log with
    | none => simp [hB] at h
    | some p =>
      cases p with
      | ret d t l =>
        simp only [hB, Option.some.injEq, Prod.mk.injEq] at h
        obtain ⟨hd, ht, hl⟩ := h
        subst hd ht hl
        exact dro2Body_zero_eof td log _ _ hB
      | next t l =>
        simp only [hB] at h
        exact ih _ _ _ _ h

theorem stopped_eq (td : timer_data) (h : td.running = 0) : { td with running := 0 } = td := by
  cases td
  simp only at h
  subst h
  rfl

/-- C10: for both decoders, once a tick has returned 0 and left `running` at 0,
any number `k` of later ticks each emit no write and return 0, and the session
data, `running = 0` included, stays as it was. -/
theorem stop_idempotent (td td1 : timer_data) (ws : List RegWrite) (fuel fuel1 k : Nat)
    (hrun : td1.running = 0) :
    (Dro1TimerCallback fuel td = some (0, td1, ws) →
      fireTimes (Dro1TimerCallback fuel1) k td1 = some (List.replicate k ([], 0), td1)) ∧
    (Dro2TimerCallback fuel td = some (0, td1, ws) →
      fireTimes (Dro2TimerCallback (fuel1 + 1)) k td1 = some (List.replicate k ([], 0), td1)) := by
  constructor
  · intro _
    have h1 : Dro1TimerCallback fuel1 td1 = some (0, td1, []) := by
      simp [Dro1TimerCallback, hrun]
    induction k with
    | zero => rfl
    | succ k ih => simp [fireTimes, h1, ih, List.replicate_succ]
  · intro h
    have he := dro2Loop_zero_eof fuel td [] td1 ws h
    have h2 : Dro2TimerCallback (fuel1 + 1) td1 = some (0, td1, []) := by
      simp [Dro2TimerCallback, Dro2Loop, Dro2Body, feof, he, stopped_eq td1 hrun]
    induction k with
    | zero => rfl
    | succ k ih => simp [fireTimes, h2, ih, List.replicate_succ]

theorem stop_idempotent_witness :
    fireTimes (Dro1TimerCallback 0) 3
        { dro1Session [] sampleData with running := 0, fstream := ⟨[], 0, true⟩ }
      = some ([([], 0), ([], 0), ([], 0)],
          { dro1Session [] sampleData with running := 0, fstream := ⟨[], 0, true⟩ }) ∧
    fireTimes (Dro2TimerCallback 1) 3
        { dro2Session (demoHeader 0) [0x7A] sampleData with
          running := 0, fstream := ⟨[0x7A], 1, true⟩ }
      = some ([([], 0), ([], 0), ([], 0)],
          { dro2Session (demoHeader 0) [0x7A] sampleData with
            running := 0, fstream := ⟨[0x7A], 1, true⟩ }) :=
  ⟨(stop_idempotent (dro1Session [] sampleData)
      { dro1Session [] sampleData with running := 0, fstream := ⟨[], 0, true⟩ }
      [⟨0, 4294967295, 4294967295⟩] 2 0 3 rfl).1 (by decide),
   (stop_idempotent
      { dro2Session (demoHeader 0) [0x7A] sampleData with fstream := ⟨[0x7A], 1, true⟩ }
      { dro2Session (demoHeader 0) [0x7A] sampleData with
        running := 0, fstream := ⟨[0x7A], 1, true⟩ }
      [] 1 0 3 rfl).2 (by decide)⟩

/-! ## Whole v1 playback -/

theorem timerRun_dro1 (fuel n : Nat) (td : timer_data) (hrun : td.running ≠ 0) :
    timerRun (Dro1TimerCallback fuel) (n + 1) td = dro1Continue fuel fuel n td [] := by
  unfold timerRun dro1Continue Dro1TimerCallback
  rw [if_neg hrun]

theorem dro1Body_end (td : timer_data) (log : List RegWrite) (he : td.fstream.eof = false)
    (h : td.fstream.rest = []) :
    Dro1Body td log
      = .next { td with fstream := { td.fstream with eof := true } }
          (log ++ [eofWrite td.dro1Bank]) := by
  have h1 := fgetc_of_rest_nil h
  have h2 : fgetc { td.fstream with eof := true } = (EOF, { td.fstream with eof := true }) :=
    @fgetc_of_rest_nil { td.fstream with eof := true } h
  simp only [Dro1Body, feof, he, h1, h2]
  simp [EOF, WriteReg, eofWrite, toUint32]

theorem dro1Body_stop (td : timer_data) (log : List RegWrite) (he : td.fstream.eof = true) :
    Dro1Body td log = .ret 0 { td with running := 0 } log := by
  simp [Dro1Body, feof, he]

/-- An event of a v1 stream seen by one pass of the loop body. -/
theorem dro1Body_event (td : timer_data) (log : List RegWrite) (c v : Byte) (tl : List Byte)
    (he : td.fstream.eof = false) (h : td.fstream.rest = c :: v :: tl) :
    (c.val = 0 → Dro1Body td log = .ret v.val { td with fstream := td.fstream.advance 2 } log) ∧
    (c.val = 2 → Dro1Body td log
        = .next { td with fstream := td.fstream.advance 2, dro1Bank := 0 } log) ∧
    (c.val = 3 → Dro1Body td log
        = .next { td with fstream := td.fstream.advance 2, dro1Bank := 1 } log) ∧
    (4 < c.val → Dro1Body td log
        = .next { td with fstream := td.fstream.advance 2 }
            (log ++ [⟨td.dro1Bank, c.val, v.val⟩])) := by
  obtain ⟨h1, h2, -⟩ := fgetc2_of_rest h
  refine ⟨fun hc => ?_, fun hc => ?_, fun hc => ?_, fun hc => ?_⟩
  · simp [Dro1Body, feof, he, h1, h2, hc, toUint32_byte]
  · simp [Dro1Body, feof, he, h1, h2, hc]
  · simp [Dro1Body, feof, he, h1, h2, hc]
  · have e0 : ¬ ((c.val : Int) = 0) := by omega
    have e1 : ¬ ((c.val : Int) = 1) := by omega
    have e2 : ¬ ((c.val : Int) = 2) := by omega
    have e3 : ¬ ((c.val : Int) = 3) := by omega
    have e4 : ¬ ((c.val : Int) = 4) := by omega
    simp [Dro1Body, feof, he, h1, h2, e0, e1, e2, e3, e4, toUint32_byte, WriteReg]

/-- A three-byte event of a v1 stream seen by one pass of the loop body. -/
theorem dro1Body_event3 (td : timer_data) (log : List RegWrite) (c v w : Byte) (tl : List Byte)
    (he : td.fstream.eof = false) (h : td.fstream.rest = c :: v :: w :: tl) :
    (c.val = 1 → Dro1Body td log
        = .ret (v.val + 256 * w.val) { td with fstream := td.fstream.advance 3 } log) ∧
    (c.val = 4 → Dro1Body td log
        = .next { td with fstream := td.fstream.advance 3 }
            (log ++ [⟨td.dro1Bank, v.val, w.val⟩])) := by
  obtain ⟨h1, h2, h3, -⟩ := fgetc3_of_rest h
  have hlt : v.val + 256 * w.val < 4294967296 := by
    have := v.isLt
    have := w.isLt
    omega
  refine ⟨fun hc => ?_, fun hc => ?_⟩
  · simp [Dro1Body, feof, he, h1, h2, h3, hc, lor_shift_bytes]
    exact_mod_cast toUint32_natCast _ hlt
  · simp [Dro1Body, feof, he, h1, h2, h3, hc, toUint32_byte, WriteReg]

theorem dro1Continue_next (left fuel n : Nat) (td td1 : timer_data) (log log1 : List RegWrite)
    (h : Dro1Body td log = .next td1 log1) :
    dro1Continue (left + 1) fuel n td log = dro1Continue left fuel n td1 log1 := by
  simp [dro1Continue, Dro1Loop, h]

theorem dro1Continue_ret (left fuel n d : Nat) (td td1 : timer_data) (log log1 : List RegWrite)
    (h : Dro1Body td log = .ret d td1 log1) (hd : d ≠ 0) (hrun : td1.running ≠ 0) :
    dro1Continue (left + 1) fuel (n + 1) td log
      = (dro1Continue fuel fuel n td1 []).map (fun r => ((log1, d) :: r.1, r.2)) := by
  simp [dro1Continue, Dro1Loop, h, hd, timerRun_dro1 fuel n td1 hrun]

theorem writesOf_cons (ws : List RegWrite) (d : Nat) (fs : List Firing) :
    writesOf ((ws, d) :: fs) = ws ++ writesOf fs := by
  simp [writesOf]

theorem validV1_cons (c v : Byte) (rest : List Byte) :
    validV1 (c :: v :: rest) =
      if c.val = 1 ∨ c.val = 4 then
        match rest with
        | _ :: rest1 => validV1 rest1
        | [] => false
      else validV1 rest := by
  cases rest <;> rfl

theorem positiveDelaysV1_cons (c v : Byte) (rest : List Byte) :
    positiveDelaysV1 (c :: v :: rest) =
      if c.val = 0 then decide (v.val ≠ 0) && positiveDelaysV1 rest
      else if c.val = 1 then
        match rest with
        | w :: rest1 => decide (v.val + 256 * w.val ≠ 0) && positiveDelaysV1 rest1
        | [] => true
      else if c.val = 4 then
        match rest with
        | _ :: rest1 => positiveDelaysV1 rest1
        | [] => true
      else positiveDelaysV1 rest := by
  cases rest <;> rfl

theorem refDecodeV1_cons (bank : Int) (c v : Byte) (rest : List Byte) :
    refDecodeV1 bank (c :: v :: rest) =
      if c.val = 0 then refDecodeV1 bank rest
      else if c.val = 1 then
        match rest with
        | _ :: rest1 => refDecodeV1 bank rest1
        | [] => []
      else if c.val = 2 then refDecodeV1 0 rest
      else if c.val = 3 then refDecodeV1 1 rest
      else if c.val = 4 then
        match rest with
        | w :: rest1 => { bank := bank, reg := v.val, val := w.val } :: refDecodeV1 bank rest1
        | [] => []
      else { bank := bank, reg := c.val, val := v.val } :: refDecodeV1 bank rest := by
  cases rest <;> rfl

theorem bankAfterV1_cons (bank : Int) (c v : Byte) (rest : List Byte) :
    bankAfterV1 bank (c :: v :: rest) =
      if c.val = 2 then bankAfterV1 0 rest
      else if c.val = 3 then bankAfterV1 1 rest
      else if c.val = 1 ∨ c.val = 4 then
        match rest with
        | _ :: rest1 => bankAfterV1 bank rest1
        | [] => bank
      else bankAfterV1 bank rest := by
  cases rest <;> rfl

theorem dro1Continue_end (left fuel n : Nat) (td : timer_data) (log : List RegWrite)
    (he : td.fstream.eof = false) (h : td.fstream.rest = []) :
    dro1Continue (left + 2) fuel n td log
      = some ([(log ++ [eofWrite td.dro1Bank], 0)],
          { td with fstream := { td.fstream with eof := true }, running := 0 }) := by
  rw [dro1Continue_next _ _ _ _ _ _ _ (dro1Body_end td log he h)]
  simp [dro1Continue, Dro1Loop, dro1Body_stop]

theorem dro1Continue_decoding (m : Nat) : ∀ (s : List Byte), s.length ≤ m →
    ∀ (td : timer_data) (log : List RegWrite) (left fuel n : Nat),
      s.length + 2 ≤ left → s.length + 2 ≤ fuel → s.length ≤ n →
      td.running ≠ 0 → td.fstream.eof = false → td.fstream.rest = s →
      validV1 s = true → positiveDelaysV1 s = true →
      ∃ fs td1, dro1Continue left fuel n td log = some (fs, td1) ∧
        writesOf fs = log ++ refDecodeV1 td.dro1Bank s
          ++ [eofWrite (bankAfterV1 td.dro1Bank s)] ∧
        td1.running = 0 := by
  induction m with
  | zero =>
    intro s hs td log left fuel n hl _ _ _ he hr _ _
    have : s = [] := List.eq_nil_of_length_eq_zero (by omega)
    subst this
    obtain ⟨l, rfl⟩ : ∃ l, left = l + 2 := ⟨left - 2, by simp at hl; omega⟩
    exact ⟨_, _, dro1Continue_end l fuel n td log he hr, by simp [writesOf, refDecodeV1, bankAfterV1], rfl⟩
  | succ m ih =>
    intro s hs td log left fuel n hl hf hn hrun he hr hv hp
    match s, hs, hl, hf, hn, hr, hv, hp with
    | [], _, hl, _, _, hr, _, _ =>
      obtain ⟨l, rfl⟩ : ∃ l, left = l + 2 := ⟨left - 2, by simp at hl; omega⟩
      exact ⟨_, _, dro1Continue_end l fuel n td log he hr, by simp [writesOf, refDecodeV1, bankAfterV1], rfl⟩
    | [_], _, _, _, _, _, hv, _ => simp [validV1] at hv
    | c :: v :: rest, hs, hl, hf, hn, hr, hv, hp =>
      simp only [List.length_cons] at hs hl hf hn
      obtain ⟨l, rfl⟩ : ∃ l, left = l + 1 := ⟨left - 1, by omega⟩
      obtain ⟨k, rfl⟩ : ∃ k, n = k + 1 := ⟨n - 1, by omega⟩
      obtain ⟨b0, b2, b3, b5⟩ := dro1Body_event td log c v rest he hr
      obtain ⟨-, -, hrest2⟩ := fgetc2_of_rest hr
      rw [validV1_cons] at hv
      rw [positiveDelaysV1_cons] at hp
      rw [refDecodeV1_cons, bankAfterV1_cons]
      by_cases c0 : c.val = 0
      · simp only [c0] at hv hp ⊢
        simp at hv hp ⊢
        rw [dro1Continue_ret l fuel k v.val td _ log log (b0 c0) hp.1 hrun]
        obtain ⟨fs, t, h1, h2, h3⟩ := ih rest (by omega)
          { td with fstream := td.fstream.advance 2 } [] fuel fuel k (by omega) (by omega)
          (by omega) hrun he hrest2 hv hp.2
        refine ⟨(log, v.val) :: fs, t, by simp [h1], ?_, h3⟩
        simp [writesOf_cons, h2]
      · by_cases c2 : c.val = 2
        · simp only [c2] at hv hp ⊢
          simp at hv hp ⊢
          rw [dro1Continue_next l fuel (k + 1) td _ log log (b2 c2)]
          obtain ⟨fs, t, h1, h2, h3⟩ := ih rest (by omega)
            { td with fstream := td.fstream.advance 2, dro1Bank := 0 } log l fuel (k + 1)
            (by omega) (by omega) (by omega) hrun he hrest2 hv hp
          refine ⟨fs, t, h1, ?_, h3⟩
          simp [h2]
        · by_cases c3 : c.val = 3
          · simp only [c3] at hv hp ⊢
            simp at hv hp ⊢
            rw [dro1Continue_next l fuel (k + 1) td _ log log (b3 c3)]
            obtain ⟨fs, t, h1, h2, h3⟩ := ih rest (by omega)
              { td with fstream := td.fstream.advance 2, dro1Bank := 1 } log l fuel (k + 1)
              (by omega) (by omega) (by omega) hrun he hrest2 hv hp
            refine ⟨fs, t, h1, ?_, h3⟩
            simp [h2]
          · by_cases c1 : c.val = 1
            · cases rest with
              | nil => simp [c1] at hv
              | cons w rest1 =>
                simp only [c1] at hv hp ⊢
                simp at hv hp hs hl hf hn ⊢
                obtain ⟨-, -, -, hrest3⟩ := fgetc3_of_rest hr
                rw [dro1Continue_ret l fuel k (v.val + 256 * w.val) td _ log log
                  ((dro1Body_event3 td log c v w rest1 he hr).1 c1) (by omega) hrun]
                obtain ⟨fs, t, h1, h2, h3⟩ := ih rest1 (by omega)
                  { td with fstream := td.fstream.advance 3 } [] fuel fuel k (by omega)
                  (by omega) (by omega) hrun he hrest3 hv hp.2
                refine ⟨(log, v.val + 256 * w.val) :: fs, t, by simp [h1], ?_, h3⟩
                simp [writesOf_cons, h2]
            · by_cases c4 : c.val = 4
              · cases rest with
                | nil => simp [c4] at hv
                | cons w rest1 =>
                  simp only [c0, c1, c2, c3, c4] at hv hp ⊢
                  simp at hv hp hs hl hf hn ⊢
                  obtain ⟨-, -, -, hrest3⟩ := fgetc3_of_rest hr
                  rw [dro1Continue_next l fuel (k + 1) td _ log _
                    ((dro1Body_event3 td log c v w rest1 he hr).2 c4)]
                  obtain ⟨fs, t, h1, h2, h3⟩ := ih rest1 (by omega)
                    { td with fstream := td.fstream.advance 3 }
                    (log ++ [⟨td.dro1Bank, v.val, w.val⟩]) l fuel (k + 1)
                    (by omega) (by omega) (by omega) hrun he hrest3 hv hp
                  refine ⟨fs, t, h1, ?_, h3⟩
                  simp [h2]
              · have c5 : 4 < c.val := by omega
                simp only [c0, c1, c2, c3, c4] at hv hp ⊢
                simp at hv hp ⊢
                rw [dro1Continue_next l fuel (k + 1) td _ log _ (b5 c5)]
                obtain ⟨fs, t, h1, h2, h3⟩ := ih rest (by omega)
                  { td with fstream := td.fstream.advance 2 }
                  (log ++ [⟨td.dro1Bank, c.val, v.val⟩]) l fuel (k + 1)
                  (by omega) (by omega) (by omega) hrun he hrest2 hv hp
                refine ⟨fs, t, h1, ?_, h3⟩
                simp [h2]

/-- The writes of a whole v1 playback: for every valid v1 event stream without a
zero delay, the ticks of `Dro1TimerCallback` run from bank 0 until the stop
signal emit the reference decoding of the stream followed by one more write,
made of the two `EOF` results of `fgetc`, and leave `running` at 0. -/
theorem dro1_run_decoding (s : List Byte) (td0 : timer_data) (hv : validV1 s = true)
    (hp : positiveDelaysV1 s = true) :
    ∃ fs td1,
      timerRun (Dro1TimerCallback (s.length + 2)) (s.length + 1) (dro1Session s td0)
        = some (fs, td1) ∧
      writesOf fs = refDecodeV1 0 s ++ [eofWrite (bankAfterV1 0 s)] ∧
      td1.running = 0 := by
  have hrun : (dro1Session s td0).running ≠ 0 := by simp [dro1Session]
  rw [timerRun_dro1 _ _ _ hrun]
  obtain ⟨fs, t, h1, h2, h3⟩ := dro1Continue_decoding s.length s (Nat.le_refl _)
    (dro1Session s td0) [] (s.length + 2) (s.length + 2) s.length (Nat.le_refl _)
    (Nat.le_refl _) (Nat.le_refl _) hrun rfl (by simp [dro1Session, fopen, FILE.rest]) hv hp
  exact ⟨fs, t, h1, by simpa [dro1Session] using h2, h3⟩

/-- C1, the code at the failing input: the valid v1 event stream `A5 00 00 05`
has the reference decoding `[(0, 0xA5, 0)]`, but the ticks run from bank 0 until
the stop signal emit that write and then a second one,
`(0, 0xFFFFFFFF, 0xFFFFFFFF)`, made of the two `EOF` results of `fgetc`. -/
theorem dro1_trailing_write :
    validV1 [0xA5, 0x00, 0x00, 0x05] = true ∧
    refDecodeV1 0 [0xA5, 0x00, 0x00, 0x05] = [⟨0, 0xA5, 0x00⟩] ∧
    (timerRun (Dro1TimerCallback 2) 2 (dro1Session [0xA5, 0x00, 0x00, 0x05] sampleData)).map
        (fun r => (r.1, r.2.running))
      = some ([([⟨0, 0xA5, 0x00⟩], 5), ([⟨0, 4294967295, 4294967295⟩], 0)], 0) := by
  decide

/-! ## Codemap index, termination, end of data -/

theorem land_eof : Int.land EOF 127 = 127 := by
  show ((Nat.ldiff 127 0 : Nat) : Int) = 127
  simp [Nat.ldiff]

theorem ldiff_127_lt (n : Nat) : Nat.ldiff 127 n < 128 := by
  have h : Nat.ldiff 127 n < 2 ^ 7 := by
    apply Nat.lt_pow_two_of_testBit
    intro i hi
    rw [Nat.testBit_ldiff]
    have : Nat.testBit 127 i = false := by
      apply Nat.testBit_lt_two_pow
      calc 127 < 2 ^ 7 := by norm_num
        _ ≤ 2 ^ i := Nat.pow_le_pow_right (by norm_num) hi
    simp [this]
  simpa using h

theorem land_127_range (x : Int) : 0 ≤ Int.land x 127 ∧ (Int.land x 127).toNat < 128 := by
  cases x with
  | ofNat n =>
    have h : Int.land (Int.ofNat n) 127 = ((n &&& 127 : Nat) : Int) := rfl
    rw [h]
    refine ⟨Int.natCast_nonneg _, ?_⟩
    simp only [Int.toNat_ofNat]
    exact Nat.lt_succ_of_le Nat.and_le_right
  | negSucc n =>
    have h : Int.land (Int.negSucc n) 127 = ((Nat.ldiff 127 n : Nat) : Int) := rfl
    rw [h]
    refine ⟨Int.natCast_nonneg _, ?_⟩
    simp only [Int.toNat_ofNat]
    exact ldiff_127_lt n

theorem codemap_lookup_some (cm : Codemap) (x : Int) :
    ∃ reg, cm.cells[(Int.land x 127).toNat]? = some reg := by
  have h := (land_127_range x).2
  rw [← cm.size_eq] at h
  exact ⟨_, List.getElem?_eq_getElem h⟩

theorem dro2Body_ne_none (td : timer_data) (log : List RegWrite) : Dro2Body td log ≠ none := by
  obtain ⟨reg, h⟩ := codemap_lookup_some td.dro2Header.codemap (fgetc td.fstream).1
  unfold Dro2Body
  simp only [h]
  split_ifs <;> exact Option.some_ne_none _

/-- C19: every value that `fgetc` yields is `EOF` or lies in 0..255, and for every
`int` value `code` the index `code & 0x7F` lies in 0..127 (127 for `EOF`), so the
lookup in the 128-cell codemap array finds a cell whatever `codemapLength` is:
the body of the v2 loop never indexes outside the array. -/
theorem codemap_lookup_in_table (code : Int) (cm : Codemap) (f : FILE) (td : timer_data)
    (log : List RegWrite) :
    ((fgetc f).1 = EOF ∨ (0 ≤ (fgetc f).1 ∧ (fgetc f).1 ≤ 255)) ∧
    0 ≤ Int.land code 0x7F ∧ Int.land code 0x7F ≤ 127 ∧
    (∃ reg, cm.cells[(Int.land code 0x7F).toNat]? = some reg) ∧
    Int.land EOF 0x7F = 127 ∧
    Dro2Body td log ≠ none := by
  have h := land_127_range code
  refine ⟨?_, h.1, ?_, codemap_lookup_some cm code, land_eof, dro2Body_ne_none td log⟩
  · rcases fgetc_range f with h1 | h1
    · left; exact h1
    · right; omega
  · have := h.2
    omega

theorem fgetc_budget_le (f : FILE) : (fgetc f).2.budget ≤ f.budget := by
  unfold fgetc FILE.budget
  cases h : f.data[f.pos]? with
  | none => simp
  | some b =>
    have hlt : f.pos < f.data.length := by
      by_contra hc
      rw [List.getElem?_eq_none (Nat.le_of_not_lt hc)] at h
      simp at h
    cases f.eof with
    | true => simp
    | false => simp; omega

theorem fgetc_budget_lt (f : FILE) (he : f.eof = false) : (fgetc f).2.budget < f.budget := by
  unfold fgetc FILE.budget
  cases h : f.data[f.pos]? with
  | none => simp [he]
  | some b =>
    have hlt : f.pos < f.data.length := by
      by_contra hc
      rw [List.getElem?_eq_none (Nat.le_of_not_lt hc)] at h
      simp at h
    simp [he]
    omega

theorem fgetc_progress (f : FILE) : f.pos < (fgetc f).2.pos ∨ (fgetc f).2.eof = true := by
  rcases fgetc_cases f with ⟨b, hb⟩ | hb
  · left; rw [hb]; simp [FILE.advance]
  · right; rw [hb]

theorem fgetc_pos_le (f : FILE) : f.pos ≤ (fgetc f).2.pos := by
  rcases fgetc_cases f with ⟨b, hb⟩ | hb
  · rw [hb]; simp [FILE.advance]
  · rw [hb]

theorem fgetc_eof_mono (f : FILE) (he : f.eof = true) : (fgetc f).2.eof = true := by
  rcases fgetc_cases f with ⟨b, hb⟩ | hb
  · rw [hb]; exact he
  · rw [hb]

theorem dro1Body_next (td td1 : timer_data) (log log1 : List RegWrite)
    (h : Dro1Body td log = .next td1 log1) :
    td1.fstream.budget < td.fstream.budget ∧
      (td.fstream.pos < td1.fstream.pos ∨ td1.fstream.eof = true) := by
  unfold Dro1Body at h
  by_cases he : feof td.fstream = true
  · rw [if_pos he] at h
    cases h
  · rw [if_neg he] at h
    have he' : td.fstream.eof = false := by simpa [feof] using he
    have b1 := fgetc_budget_lt td.fstream he'
    have b2 := fgetc_budget_le (fgetc td.fstream).2
    have b3 := fgetc_budget_le (fgetc (fgetc td.fstream).2).2
    have p1 := fgetc_progress td.fstream
    have p2 := fgetc_pos_le (fgetc td.fstream).2
    have p3 := fgetc_pos_le (fgetc (fgetc td.fstream).2).2
    have e2 := fgetc_eof_mono (fgetc td.fstream).2
    have e3 := fgetc_eof_mono (fgetc (fgetc td.fstream).2).2
    simp only at h
    split_ifs at h <;> cases h <;> refine ⟨by simp only; omega, ?_⟩ <;>
      rcases p1 with p1 | p1
    all_goals first
      | (left; simp only; omega)
      | (right; simp only; first | exact e2 p1 | exact e3 (e2 p1))

theorem dro2Body_next (td td1 : timer_data) (log log1 : List RegWrite)
    (h : Dro2Body td log = some (.next td1 log1)) :
    td1.fstream.budget < td.fstream.budget ∧
      (td.fstream.pos < td1.fstream.pos ∨ td1.fstream.eof = true) := by
  unfold Dro2Body at h
  by_cases he : feof td.fstream = true
  · rw [if_pos he] at h
    simp at h
  · rw [if_neg he] at h
    have he' : td.fstream.eof = false := by simpa [feof] using he
    have b1 := fgetc_budget_lt td.fstream he'
    have b2 := fgetc_budget_le (fgetc td.fstream).2
    have p1 := fgetc_progress td.fstream
    have p2 := fgetc_pos_le (fgetc td.fstream).2
    have e2 := fgetc_eof_mono (fgetc td.fstream).2
    simp only at h
    split_ifs at h
    · simp at h
    · simp at h
    · split at h
      · simp at h
      · simp only [Option.some.injEq, Pass.next.injEq] at h
        obtain ⟨h1, -⟩ := h
        subst h1
        refine ⟨by simp only; omega, ?_⟩
        rcases p1 with p1 | p1
        · left; simp only; omega
        · right; exact e2 p1

theorem dro1Loop_returns (fuel : Nat) : ∀ (td : timer_data) (log : List RegWrite),
    td.fstream.budget < fuel → ∃ r, Dro1Loop fuel td log = some r := by
  induction fuel with
  | zero => intro td log h; omega
  | succ n ih =>
    intro td log h
    unfold Dro1Loop
    cases hB : Dro1Body td log with
    | ret d t l => exact ⟨_, rfl⟩
    | next t l =>
      have := (dro1Body_next td t log l hB).1
      exact ih t l (by omega)

theorem dro2Loop_returns (fuel : Nat) : ∀ (td : timer_data) (log : List RegWrite),
    td.fstream.budget < fuel → ∃ r, Dro2Loop fuel td log = some r := by
  induction fuel with
  | zero => intro td log h; omega
  | succ n ih =>
    intro td log h
    unfold Dro2Loop
    cases hB : Dro2Body td log with
    | none => exact absurd hB (dro2Body_ne_none td log)
    | some p =>
      cases p with
      | ret d t l => exact ⟨_, rfl⟩
      | next t l =>
        have := (dro2Body_next td t log l hB).1
        exact ih t l (by omega)

theorem dro1Loop_more (fuel k : Nat) : ∀ (td : timer_data) (log : List RegWrite) (r : Tick),
    Dro1Loop fuel td log = some r → Dro1Loop (fuel + k) td log = some r := by
  induction fuel with
  | zero => intro td log r h; simp [Dro1Loop] at h
  | succ n ih =>
    intro td log r h
    have hk : n + 1 + k = (n + k) + 1 := by omega
    rw [hk]
    unfold Dro1Loop at h ⊢
    cases hB : Dro1Body td log with
    | ret d t l => simpa [hB] using h
    | next t l =>
      simp only [hB] at h ⊢
      exact ih t l r h

theorem dro2Loop_more (fuel k : Nat) : ∀ (td : timer_data) (log : List RegWrite) (r : Tick),
    Dro2Loop fuel td log = some r → Dro2Loop (fuel + k) td log = some r := by
  induction fuel with
  | zero => intro td log r h; simp [Dro2Loop] at h
  | succ n ih =>
    intro td log r h
    have hk : n + 1 + k = (n + k) + 1 := by omega
    rw [hk]
    unfold Dro2Loop at h ⊢
    cases hB : Dro2Body td log with
    | none => simp [hB] at h
    | some p =>
      cases p with
      | ret d t l => simpa [hB] using h
      | next t l =>
        simp only [hB] at h ⊢
        exact ih t l r h

theorem budget_le (f : FILE) : f.budget ≤ (f.data.length - f.pos) + 1 := by
  unfold FILE.budget
  split_ifs <;> omega

/-- C20: for every session data (any finite stream, header and bank) one call of
`Dro1TimerCallback` and one call of `Dro2TimerCallback` return, with a result
that no longer depends on the iteration budget once the budget exceeds the
number of unread bytes by 2; an iteration that does not return has advanced the
read position or set the end-of-file indicator, and with the indicator set the
next iteration returns 0 with `running` cleared. -/
theorem tick_terminates (td : timer_data) :
    (∃ r, ∀ fuel, (td.fstream.data.length - td.fstream.pos) + 2 ≤ fuel →
      Dro1TimerCallback fuel td = some r) ∧
    (∃ r, ∀ fuel, (td.fstream.data.length - td.fstream.pos) + 2 ≤ fuel →
      Dro2TimerCallback fuel td = some r) ∧
    (∀ log td1 log1, Dro1Body td log = .next td1 log1 →
      td.fstream.pos < td1.fstream.pos ∨ td1.fstream.eof = true) ∧
    (∀ log td1 log1, Dro2Body td log = some (.next td1 log1) →
      td.fstream.pos < td1.fstream.pos ∨ td1.fstream.eof = true) ∧
    (∀ log, td.fstream.eof = true →
      Dro1Body td log = .ret 0 { td with running := 0 } log ∧
      Dro2Body td log = some (.ret 0 { td with running := 0 } log)) := by
  have hb := budget_le td.fstream
  refine ⟨?_, ?_, fun log td1 log1 h => (dro1Body_next td td1 log log1 h).2,
    fun log td1 log1 h => (dro2Body_next td td1 log log1 h).2, fun log he => ?_⟩
  · by_cases hrun : td.running = 0
    · exact ⟨(0, td, []), fun fuel _ => by simp [Dro1TimerCallback, hrun]⟩
    · obtain ⟨r, hr⟩ := dro1Loop_returns ((td.fstream.data.length - td.fstream.pos) + 2) td []
        (by omega)
      refine ⟨r, fun fuel hf => ?_⟩
      obtain ⟨k, rfl⟩ : ∃ k, fuel = (td.fstream.data.length - td.fstream.pos) + 2 + k :=
        ⟨fuel - ((td.fstream.data.length - td.fstream.pos) + 2), by omega⟩
      simp only [Dro1TimerCallback, hrun, if_false]
      exact dro1Loop_more _ k td [] r hr
  · obtain ⟨r, hr⟩ := dro2Loop_returns ((td.fstream.data.length - td.fstream.pos) + 2) td []
      (by omega)
    refine ⟨r, fun fuel hf => ?_⟩
    obtain ⟨k, rfl⟩ : ∃ k, fuel = (td.fstream.data.length - td.fstream.pos) + 2 + k :=
      ⟨fuel - ((td.fstream.data.length - td.fstream.pos) + 2), by omega⟩
    exact dro2Loop_more _ k td [] r hr
  · exact ⟨dro1Body_stop td log he, by simp [Dro2Body, feof, he]⟩

theorem tick_terminates_witness :
    ((dro1Session [0xA5, 0x00, 0x00, 0x05] sampleData).fstream.pos
        < ({ dro1Session [0xA5, 0x00, 0x00, 0x05] sampleData with
              fstream := ⟨[0xA5, 0x00, 0x00, 0x05], 2, false⟩ } : timer_data).fstream.pos ∨
      ({ dro1Session [0xA5, 0x00, 0x00, 0x05] sampleData with
          fstream := ⟨[0xA5, 0x00, 0x00, 0x05], 2, false⟩ } : timer_data).fstream.eof = true) ∧
    Dro2Body { dro2Session (demoHeader 0) [0x7A] sampleData with fstream := ⟨[0x7A], 1, true⟩ } []
      = some (.ret 0
          { dro2Session (demoHeader 0) [0x7A] sampleData with
            fstream := ⟨[0x7A], 1, true⟩, running := 0 } []) :=
  ⟨(tick_terminates (dro1Session [0xA5, 0x00, 0x00, 0x05] sampleData)).2.2.1 []
      { dro1Session [0xA5, 0x00, 0x00, 0x05] sampleData with
        fstream := ⟨[0xA5, 0x00, 0x00, 0x05], 2, false⟩ }
      [⟨0, 0xA5, 0x00⟩] rfl,
   ((tick_terminates
      { dro2Session (demoHeader 0) [0x7A] sampleData with fstream := ⟨[0x7A], 1, true⟩ }).2.2.2.2
      [] rfl).2⟩

theorem shiftRight_eof : Int.shiftRight EOF 7 = -1 := rfl

theorem toUint32_eof : toUint32 EOF = 4294967295 := by decide

theorem dro2Body_stop (td : timer_data) (log : List RegWrite) (he : td.fstream.eof = true) :
    Dro2Body td log = some (.ret 0 { td with running := 0 } log) := by
  simp [Dro2Body, feof, he]

theorem dro2Body_end (td : timer_data) (log : List RegWrite) (he : td.fstream.eof = false)
    (h : td.fstream.rest = []) :
    ∃ reg, td.dro2Header.codemap.cells[127]? = some reg ∧
      Dro2Body td log
        = some (.next { td with fstream := { td.fstream with eof := true } }
            (log ++ [⟨-1, reg.val, 4294967295⟩])) := by
  have h1 := fgetc_of_rest_nil h
  have h2 : fgetc { td.fstream with eof := true } = (EOF, { td.fstream with eof := true }) :=
    @fgetc_of_rest_nil { td.fstream with eof := true } h
  obtain ⟨reg, hreg⟩ := codemap_lookup_some td.dro2Header.codemap EOF
  rw [land_eof] at hreg
  have hreg' : td.dro2Header.codemap.cells[127]? = some reg := hreg
  refine ⟨reg, hreg', ?_⟩
  have hs : ¬ (EOF = (td.dro2Header.shortDelayCode.val : Int)) := by
    unfold EOF; omega
  have hl : ¬ (EOF = (td.dro2Header.longDelayCode.val : Int)) := by
    unfold EOF; omega
  have hidx : (Int.land EOF 127).toNat = 127 := by rw [land_eof]; rfl
  simp only [Dro2Body, feof, he, h1, h2, hs, hl, hidx, hreg', shiftRight_eof]
  simp only [WriteReg, toUint32_byte, toUint32_eof, Bool.false_eq_true, if_false]

/-- A v2 tick that starts with no byte left and the end-of-file indicator still
clear writes once, from the two `EOF` results of `fgetc` and cell 127 of the
codemap array, before it stops. -/
theorem dro2_tick_at_end (td : timer_data) (fuel : Nat) (he : td.fstream.eof = false)
    (h : td.fstream.rest = []) :
    ∃ reg, td.dro2Header.codemap.cells[127]? = some reg ∧
      Dro2TimerCallback (fuel + 2) td
        = some (0, { td with fstream := { td.fstream with eof := true }, running := 0 },
            [⟨-1, reg.val, 4294967295⟩]) := by
  obtain ⟨reg, hreg, hb⟩ := dro2Body_end td [] he h
  refine ⟨reg, hreg, ?_⟩
  rw [Dro2TimerCallback, Dro2Loop, hb]
  simp only
  rw [Dro2Loop, dro2Body_stop _ _ rfl]
  rfl

/-- C11, the code at the failing inputs: on a running v1 session whose stream is
the single byte `00` the tick returns 4294967295 and leaves `running` at 1; with
the single byte `A5` it writes `(0, 0xA5, 0xFFFFFFFF)` before it stops, with
`04` it writes `(0, 0xFFFFFFFF, 0xFFFFFFFF)`; only a bank code such as `03` ends
as the claim says. -/
theorem dro1_dangling_byte :
    Dro1TimerCallback 2 (dro1Session [0x00] sampleData)
      = some (4294967295,
          { dro1Session [0x00] sampleData with fstream := ⟨[0x00], 1, true⟩ }, []) ∧
    (dro1Session [0x00] sampleData).running = 1 ∧
    Dro1TimerCallback 2 (dro1Session [0xA5] sampleData)
      = some (0, { dro1Session [0xA5] sampleData with
                    fstream := ⟨[0xA5], 1, true⟩, running := 0 },
              [⟨0, 0xA5, 4294967295⟩]) ∧
    Dro1TimerCallback 2 (dro1Session [0x04] sampleData)
      = some (0, { dro1Session [0x04] sampleData with
                    fstream := ⟨[0x04], 1, true⟩, running := 0 },
              [⟨0, 4294967295, 4294967295⟩]) ∧
    Dro1TimerCallback 2 (dro1Session [0x03] sampleData)
      = some (0, { dro1Session [0x03] sampleData with
                    fstream := ⟨[0x03], 1, true⟩, running := 0, dro1Bank := 1 }, []) := by
  decide

/-- C12, the code at the failing input: `PlayFile` arms the v2 timer on a file
that ends right after its codemap; the first tick starts with no byte left and
still writes `(-1, 0xEE, 0xFFFFFFFF)`, from the two `EOF` results of `fgetc` and
the never assigned cell 127 of the codemap array, before it clears `running`
and returns 0. -/
theorem dro2_write_at_end :
    PlayFile codemapOnlyFile garbageData = .timer .dro2 codemapOnlySession ∧
    codemapOnlySession.fstream.rest = [] ∧
    Dro2TimerCallback 2 codemapOnlySession
      = some (0, { codemapOnlySession with
                    fstream := { data := codemapOnlyFile, pos := 29, eof := true }
                    running := 0 },
              [⟨-1, 0xEE, 4294967295⟩]) := by
  refine ⟨by decide, by set_option maxRecDepth 4096 in decide, ?_⟩
  obtain ⟨reg, hreg, ht⟩ := dro2_tick_at_end codemapOnlySession 0 rfl
    (by set_option maxRecDepth 4096 in decide)
  have h2 : codemapOnlySession.dro2Header.codemap.cells[127]? = some 0xEE := by
    set_option maxRecDepth 4096 in decide
  rw [h2] at hreg
  have hr : reg = 0xEE := (Option.some.inj hreg).symm
  subst hr
  exact ht

theorem dro1_stopped_noop (td : timer_data) (fuel : Nat) (h : td.running = 0) :
    Dro1TimerCallback fuel td = some (0, td, []) := by
  simp [Dro1TimerCallback, h]

/-- C17, counterexample: session data with `running = 0`, the end-of-file
indicator clear and the bytes `02 11 7A 04` unread; the tick of
`Dro2TimerCallback`, which has no test of `running`, reads all four bytes,
writes `(0, 0xB0, 0x11)` and returns the interval 5. -/
theorem dro2_tick_when_stopped :
    ({ dro2Session (demoHeader 0) [0x02, 0x11, 0x7A, 0x04] sampleData with
        running := 0 } : timer_data).running = 0 ∧
    Dro2TimerCallback 2
        { dro2Session (demoHeader 0) [0x02, 0x11, 0x7A, 0x04] sampleData with running := 0 }
      = some (5, { dro2Session (demoHeader 0) [0x02, 0x11, 0x7A, 0x04] sampleData with
                    running := 0, fstream := ⟨[0x02, 0x11, 0x7A, 0x04], 4, false⟩ },
              [⟨0, 0xB0, 0x11⟩]) := by
  set_option maxRecDepth 4096 in decide

/-! ## Session start: short reads, v1 stream start, example file, codemap provenance -/

theorem strncmp_tag_iff (s : List Byte) (h : s.length = 8) :
    strncmp 8 s HEADER_STRING = 0 ↔ s = magicTag := by
  have hnz : ∀ b ∈ HEADER_STRING.take 8, b ≠ 0 := by
    intro b hb
    simp only [HEADER_STRING, List.take_succ_cons, List.take_zero, List.mem_cons,
      List.mem_singleton, List.not_mem_nil, or_false] at hb
    rcases hb with h | h | h | h | h | h | h | h <;> subst h <;> decide
  have := strncmp_eq_zero_iff 8 s HEADER_STRING (by omega) (by simp [HEADER_STRING]) hnz
  rw [this, List.take_of_length_le (by omega)]
  rfl

theorem PlayFile_short_header (bytes : List Byte) (td0 : timer_data) (h : bytes.length < 8) :
    PlayFile bytes td0 = .exit .readHeader := by
  have hl : (bytes.take 8).length < 8 := by simp; omega
  simp only [PlayFile, fread_fopen]
  rw [if_pos hl]

theorem PlayFile_bad_magic (bytes : List Byte) (td0 : timer_data) (h : 8 ≤ bytes.length)
    (hne : bytes.take 8 ≠ magicTag) : PlayFile bytes td0 = .exit .invalidFormat := by
  have hl : (bytes.take 8).length = 8 := by simp; omega
  have hc : strncmp 8 (bytes.take 8) HEADER_STRING ≠ 0 :=
    fun hc => hne ((strncmp_tag_iff _ hl).1 hc)
  simp only [PlayFile, fread_fopen]
  rw [if_neg (by omega), if_pos hc]

theorem PlayFile_short_version (t : List Byte) (td0 : timer_data) (h : t.length < 4) :
    PlayFile (magicTag ++ t) td0 = .exit .readVersion := by
  obtain ⟨h8, hr8, -⟩ := fread_magic t
  have h4 : (fread 4 ((fopen (magicTag ++ t)).advance 8)).1 = t := by
    rw [fread_fst]
    have : List.drop ((fopen (magicTag ++ t)).advance 8).pos
        ((fopen (magicTag ++ t)).advance 8).data = t := hr8
    rw [this, List.take_of_length_le (by omega)]
  simp only [PlayFile, h8, strncmp_magic, magicTag_length, h4]
  simp only [Nat.lt_irrefl, if_false, ne_eq, not_true_eq_false]
  split
  · simp at h
  · rfl

theorem PlayFile_short_dro2_header (t : List Byte) (td0 : timer_data) (h : t.length < 14) :
    PlayFile (magicTag ++ 2 :: 0 :: 0 :: 0 :: t) td0 = .exit .readDro2Header := by
  rw [PlayFile_after_version]
  have hv : u16le 2 0 = 2 ∧ u16le 0 0 = 0 := by decide
  have hv' : ¬ (u16le 2 0 = 0 ∧ u16le 0 0 = 1) := by decide
  rw [if_neg hv', if_pos hv]
  have h14 : (fread 14 (afterVersion (magicTag ++ 2 :: 0 :: 0 :: 0 :: t))).1 = t := by
    rw [fread_fst]
    have : List.drop (afterVersion (magicTag ++ 2 :: 0 :: 0 :: 0 :: t)).pos
        (afterVersion (magicTag ++ 2 :: 0 :: 0 :: 0 :: t)).data = t := by
      simp [afterVersion, magicTag, HEADER_STRING]
    rw [this, List.take_of_length_le (by omega)]
  rw [h14]
  split
  · simp at h
  · rfl

theorem playback_exit (n fuel : Nat) (bytes : List Byte) (td0 : timer_data) (e : Failure)
    (h : PlayFile bytes td0 = .exit e) :
    playback n fuel bytes td0 = some { start := .exit e, firings := [], last := none } := by
  simp [playback, h]

/-- C13: a file of fewer than 8 bytes exits with "Failed to read file header", a
file of fewer than 12 bytes exits with some diagnostic ("Failed to read file
version" when the tag matches), a v2 file with fewer than 14 bytes behind the
version exits with "Could not read DROv2 header", and a v2 file with fewer than
`codemapLength` bytes behind the header exits too ("Could not read codemap"
when `codemapLength ≤ 128`); in every case no timer fires and no register is
written. -/
theorem short_reads_fatal (bytes : List Byte) (td0 : timer_data) (n fuel : Nat) :
    (bytes.length < 8 →
      playback n fuel bytes td0
        = some { start := .exit .readHeader, firings := [], last := none }) ∧
    (bytes.length < 12 →
      ∃ e, playback n fuel bytes td0 = some { start := .exit e, firings := [], last := none }) ∧
    (∀ t, bytes = magicTag ++ t → t.length < 4 →
      playback n fuel bytes td0
        = some { start := .exit .readVersion, firings := [], last := none }) ∧
    (∀ t, bytes = magicTag ++ 2 :: 0 :: 0 :: 0 :: t → t.length < 14 →
      playback n fuel bytes td0
        = some { start := .exit .readDro2Header, firings := [], last := none }) ∧
    (∀ p0 p1 p2 p3 m0 m1 m2 m3 hw fmt comp sd ld len rest,
      bytes = magicTag ++ 2 :: 0 :: 0 :: 0 :: p0 :: p1 :: p2 :: p3 :: m0 :: m1 :: m2 :: m3 ::
        hw :: fmt :: comp :: sd :: ld :: len :: rest →
      rest.length < len.val →
      ∃ e, playback n fuel bytes td0 = some { start := .exit e, firings := [], last := none } ∧
        (len.val ≤ 128 → e = .readCodemap)) := by
  refine ⟨fun h => ?_, fun h => ?_, fun t hb h => ?_, fun t hb h => ?_, ?_⟩
  · exact playback_exit _ _ _ _ _ (PlayFile_short_header bytes td0 h)
  · by_cases h8 : bytes.length < 8
    · exact ⟨_, playback_exit _ _ _ _ _ (PlayFile_short_header bytes td0 h8)⟩
    · by_cases hm : bytes.take 8 = magicTag
      · have hb : bytes = magicTag ++ bytes.drop 8 := by
          rw [← hm, List.take_append_drop]
        have hl : (bytes.drop 8).length < 4 := by simp; omega
        refine ⟨.readVersion, playback_exit _ _ _ _ _ ?_⟩
        rw [hb]
        exact PlayFile_short_version _ td0 hl
      · exact ⟨_, playback_exit _ _ _ _ _ (PlayFile_bad_magic bytes td0 (by omega) hm)⟩
  · subst hb
    exact playback_exit _ _ _ _ _ (PlayFile_short_version t td0 h)
  · subst hb
    exact playback_exit _ _ _ _ _ (PlayFile_short_dro2_header t td0 h)
  · intro p0 p1 p2 p3 m0 m1 m2 m3 hw fmt comp sd ld len rest hb h
    subst hb
    by_cases hbig : len.val > 128
    · refine ⟨.tooManyCodemapEntries len.val, playback_exit _ _ _ _ _ ?_,
        fun hc => absurd hbig (by omega)⟩
      rw [PlayFile_dro2_header, if_pos hbig]
    · refine ⟨.readCodemap, playback_exit _ _ _ _ _ ?_, fun _ => rfl⟩
      rw [PlayFile_dro2_header, if_neg hbig, if_pos h]

theorem short_reads_fatal_witness :
    playback 3 3 [0x44, 0x42, 0x52] sampleData
      = some { start := .exit .readHeader, firings := [], last := none } ∧
    playback 3 3 (magicTag ++ [2, 0]) sampleData
      = some { start := .exit .readVersion, firings := [], last := none } ∧
    playback 3 3 (magicTag ++ 2 :: 0 :: 0 :: 0 :: [1, 2, 3]) sampleData
      = some { start := .exit .readDro2Header, firings := [], last := none } ∧
    (∃ e, playback 3 3 (magicTag ++ 2 :: 0 :: 0 :: 0 :: 0 :: 0 :: 0 :: 0 :: 0 :: 0 :: 0 :: 0 ::
          0 :: 0 :: 0 :: 0x7A :: 0x7B :: 3 :: [0x20, 0x40]) sampleData
        = some { start := .exit e, firings := [], last := none } ∧
        ((3 : Byte).val ≤ 128 → e = .readCodemap)) :=
  ⟨(short_reads_fatal [0x44, 0x42, 0x52] sampleData 3 3).1 (by decide),
   (short_reads_fatal (magicTag ++ [2, 0]) sampleData 3 3).2.2.1 [2, 0] rfl (by decide),
   (short_reads_fatal (magicTag ++ 2 :: 0 :: 0 :: 0 :: [1, 2, 3]) sampleData 3 3).2.2.2.1
     [1, 2, 3] rfl (by decide),
   (short_reads_fatal (magicTag ++ 2 :: 0 :: 0 :: 0 :: 0 :: 0 :: 0 :: 0 :: 0 :: 0 :: 0 :: 0 ::
      0 :: 0 :: 0 :: 0x7A :: 0x7B :: 3 :: [0x20, 0x40]) sampleData 3 3).2.2.2.2
     0 0 0 0 0 0 0 0 0 0 0 0x7A 0x7B 3 [0x20, 0x40] rfl (by decide)⟩

theorem PlayFile_dro1_inv (bytes : List Byte) (td0 td : timer_data)
    (h : PlayFile bytes td0 = .timer .dro1 td) :
    td = { td0 with fstream := { data := bytes, pos := 28, eof := false }
                    running := 1, dro1Bank := 0 } := by
  unfold PlayFile at h
  simp only at h
  repeat' split at h
  all_goals try (simp at h; done)
  injection h with _ htd
  rw [← htd]
  rfl

/-- C14: a file made of the tag and the version 0.1 is accepted whatever follows,
and whenever `PlayFile` arms the v1 timer the bank is 0, `running` is 1 and the
stream stands at absolute offset 28 with the end-of-file indicator clear, so
that the first two reads of the decoder yield the bytes at offsets 28 and 29. -/
theorem dro1_stream_start (bytes : List Byte) (td0 td : timer_data) :
    (∀ rest, bytes = magicTag ++ 0 :: 0 :: 1 :: 0 :: rest →
      PlayFile bytes td0
        = .timer .dro1 { td0 with fstream := { data := bytes, pos := 28, eof := false }
                                  running := 1, dro1Bank := 0 }) ∧
    (PlayFile bytes td0 = .timer .dro1 td →
      td.dro1Bank = 0 ∧ td.running = 1 ∧
      td.fstream = { data := bytes, pos := 28, eof := false } ∧
      ∀ c v, bytes[28]? = some c → bytes[29]? = some v →
        fgetc td.fstream = ((c.val : Int), { data := bytes, pos := 29, eof := false }) ∧
        fgetc { data := bytes, pos := 29, eof := false }
          = ((v.val : Int), { data := bytes, pos := 30, eof := false })) := by
  constructor
  · intro rest hb
    subst hb
    rw [PlayFile_after_version, if_pos (by decide)]
    rfl
  · intro h
    have htd := PlayFile_dro1_inv bytes td0 td h
    subst htd
    refine ⟨rfl, rfl, rfl, fun c v hc hv => ?_⟩
    simp [fgetc, hc, hv]

theorem dro1_stream_start_witness :
    fgetc ({ data := exampleFileV1, pos := 28, eof := false } : FILE)
        = (0xA5, { data := exampleFileV1, pos := 29, eof := false }) ∧
      fgetc ({ data := exampleFileV1, pos := 29, eof := false } : FILE)
        = (0x00, { data := exampleFileV1, pos := 30, eof := false }) :=
  ((dro1_stream_start exampleFileV1 sampleData
      { sampleData with fstream := { data := exampleFileV1, pos := 28, eof := false }
                        running := 1, dro1Bank := 0 }).2 (by decide)).2.2.2
    0xA5 0x00 (by decide) (by decide)

/-- C15, counterexample: on the example file (28 zero bytes as the reserved part)
`PlayFile` exits with "Unrecognized DRO file version 0.0"; no timer fires and
the writes are not `[(0, 0xA5, 0x00)]`. -/
theorem example_file_rejected :
    playback 4 8 (exampleFile (List.replicate 28 0)) sampleData
      = some { start := .exit (.unrecognizedVersion 0 0), firings := [], last := none } ∧
    (playback 4 8 (exampleFile (List.replicate 28 0)) sampleData).map
        (fun p => writesOf p.firings) ≠ some [⟨0, 0xA5, 0x00⟩] := by
  constructor <;> decide

/-- C15, amended: the example file, whatever its 28 reserved bytes are, carries the
version 0.0 and is rejected at session start with "Unrecognized DRO file
version": no timer is armed and no register is written. -/
theorem example_file_unrecognized (reserved : List Byte) (td0 : timer_data) (n fuel : Nat) :
    playback n fuel (exampleFile reserved) td0
      = some { start := .exit (.unrecognizedVersion 0 0), firings := [], last := none } := by
  apply playback_exit
  unfold exampleFile
  rw [PlayFile_after_version, if_neg (by decide), if_neg (by decide)]
  rfl

/-- The v1 variant of the example file played to the end: one write and a 5 ms
re-arm, a 10 ms re-arm, then the write made of `EOF` results and the stop. -/
theorem example_file_v1_variant :
    (playback 3 3 exampleFileV1 sampleData).map (fun p => p.firings)
      = some [([⟨0, 0xA5, 0x00⟩], 5), ([], 10), ([eofWrite 0], 0)] := by
  set_option maxRecDepth 8192 in decide

theorem dro2Body_header (td : timer_data) (log : List RegWrite) (p : Pass)
    (h : Dro2Body td log = some p) : p.data.dro2Header = td.dro2Header := by
  unfold Dro2Body at h
  by_cases he : feof td.fstream = true
  · rw [if_pos he] at h
    cases h
    rfl
  · rw [if_neg he] at h
    simp only at h
    by_cases h1 : (fgetc td.fstream).1 = (td.dro2Header.shortDelayCode.val : Int)
    · rw [if_pos h1] at h
      cases h
      rfl
    · rw [if_neg h1] at h
      by_cases h2 : (fgetc td.fstream).1 = (td.dro2Header.longDelayCode.val : Int)
      · rw [if_pos h2] at h
        cases h
        rfl
      · rw [if_neg h2] at h
        split at h
        · cases h
        · cases h
          rfl

theorem dro2Loop_header (fuel : Nat) : ∀ (td : timer_data) (log : List RegWrite) (r : Tick),
    Dro2Loop fuel td log = some r → r.2.1.dro2Header = td.dro2Header := by
  induction fuel with
  | zero => intro td log r h; simp [Dro2Loop] at h
  | succ n ih =>
    intro td log r h
    unfold Dro2Loop at h
    cases hB : Dro2Body td log with
    | none => simp [hB] at h
    | some p =>
      have hp := dro2Body_header td log p hB
      cases p with
      | ret d t l =>
        simp only [hB, Option.some.injEq] at h
        rw [← h]
        exact hp
      | next t l =>
        simp only [hB] at h
        rw [ih t l r h]
        exact hp

theorem cell_source (bytes : List Byte) (td0 td : timer_data)
    (h : PlayFile bytes td0 = .timer .dro2 td) (i : Nat) :
    (i < td.dro2Header.codemapLength.val →
      td.dro2Header.codemap.cells[i]? = bytes[26 + i]?) ∧
    (td.dro2Header.codemapLength.val ≤ i →
      td.dro2Header.codemap.cells[i]? = td0.dro2Header.codemap.cells[i]?) := by
  obtain ⟨-, -, ht, hd⟩ := PlayFile_dro2_inv bytes td0 td h
  constructor
  · intro hi
    have h1 := congrArg (fun l => l[i]?) ht
    simp only [List.getElem?_take, hi, if_true, List.getElem?_drop] at h1
    exact h1
  · intro hi
    have h1 := congrArg (fun l => l[i - td.dro2Header.codemapLength.val]?) hd
    simp only [List.getElem?_drop] at h1
    have e : td.dro2Header.codemapLength.val + (i - td.dro2Header.codemapLength.val) = i := by
      omega
    rw [e] at h1
    exact h1

/-- C18, counterexample: `outOfMapFile` has `codemapLength = 3` and an event with
code 0x05; `PlayFile` arms the v2 timer and the first tick writes the register
0xEE, the content of cell 5 of the array before the file was read. -/
theorem dro2_code_beyond_codemap :
    PlayFile outOfMapFile garbageData = .timer .dro2 outOfMapSession ∧
    outOfMapSession.dro2Header.codemapLength.val = 3 ∧
    ¬ ((0x05 : Byte).val &&& 0x7F < 3) ∧
    Dro2TimerCallback 2 outOfMapSession
      = some (5, { outOfMapSession with fstream := { data := outOfMapFile, pos := 33, eof := false } },
              [⟨0, 0xEE, 0x11⟩]) := by
  refine ⟨by decide, by decide, by decide, ?_⟩
  set_option maxRecDepth 8192 in decide

/-- C18, amended: v2 codes are not validated against `codemapLength`. In a v2
session armed by `PlayFile` the write for a non-delay pair `(code, value)` takes
its register from cell `code & 0x7F` of the codemap array, an index below 128;
that cell holds the file byte at offset `26 + index` when the index is below
`codemapLength`, and what the array held before the file was read otherwise.
The header stays the same through every tick. -/
theorem dro2_register_source (bytes : List Byte) (td0 td : timer_data)
    (h : PlayFile bytes td0 = .timer .dro2 td) (p : Byte × Byte) :
    p.1.val &&& 0x7F < 128 ∧
    (p.1.val &&& 0x7F < td.dro2Header.codemapLength.val →
      (bytes[26 + (p.1.val &&& 0x7F)]?).map Fin.val = some (dro2Write td.dro2Header p).reg) ∧
    (td.dro2Header.codemapLength.val ≤ p.1.val &&& 0x7F →
      (td0.dro2Header.codemap.cells[p.1.val &&& 0x7F]?).map Fin.val
        = some (dro2Write td.dro2Header p).reg) ∧
    (∀ (t : timer_data) (log : List RegWrite) (tl : List Byte),
      t.dro2Header = td.dro2Header → t.fstream.eof = false →
      t.fstream.rest = p.1 :: p.2 :: tl →
      p.1 ≠ td.dro2Header.shortDelayCode → p.1 ≠ td.dro2Header.longDelayCode →
      Dro2Body t log = some (.next { t with fstream := t.fstream.advance 2 }
        (log ++ [dro2Write td.dro2Header p]))) ∧
    (∀ (fuel : Nat) (t : timer_data) (r : Tick), t.dro2Header = td.dro2Header →
      Dro2TimerCallback fuel t = some r → r.2.1.dro2Header = td.dro2Header) := by
  have hlt : p.1.val &&& 0x7F < 128 := Nat.lt_succ_of_le Nat.and_le_right
  have hlen : p.1.val &&& 0x7F < td.dro2Header.codemap.cells.length := by
    rw [td.dro2Header.codemap.size_eq]; exact hlt
  have hget : td.dro2Header.codemap.cells[p.1.val &&& 0x7F]?
      = some (td.dro2Header.codemap.cells.get ⟨p.1.val &&& 0x7F, hlen⟩) :=
    List.getElem?_eq_getElem hlen
  have hreg : (td.dro2Header.codemap.cells[p.1.val &&& 0x7F]?).map Fin.val
      = some (dro2Write td.dro2Header p).reg := by
    rw [hget]; rfl
  obtain ⟨c1, c2⟩ := cell_source bytes td0 td h (p.1.val &&& 0x7F)
  refine ⟨hlt, fun hi => ?_, fun hi => ?_, ?_, ?_⟩
  · rw [← c1 hi]; exact hreg
  · rw [← c2 hi]; exact hreg
  · intro t log tl hh he hr hs hl
    rw [← hh] at hs hl ⊢
    exact dro2Body_write t log p.1 p.2 tl he hr hs hl
  · intro fuel t r hh ht
    rw [← hh]
    exact dro2Loop_header fuel t [] r ht

theorem dro2_register_source_witness :
    (garbageData.dro2Header.codemap.cells[5]?).map Fin.val
        = some (dro2Write outOfMapSession.dro2Header (0x05, 0x11)).reg ∧
    (outOfMapFile[26 + 2]?).map Fin.val
        = some (dro2Write outOfMapSession.dro2Header (0x02, 0x11)).reg :=
  ⟨(dro2_register_source outOfMapFile garbageData outOfMapSession (by decide)
      (0x05, 0x11)).2.2.1 (by decide),
   (dro2_register_source outOfMapFile garbageData outOfMapSession (by decide)
      (0x02, 0x11)).2.1 (by decide)⟩

theorem lor_eof_shift : Int.lor EOF (EOF <<< (8 : Int)) = -1 := by
  have h : EOF <<< (8 : Int) = Int.negSucc (Nat.shiftLeft' true 0 8) := rfl
  rw [h]
  show Int.negSucc (0 &&& Nat.shiftLeft' true 0 8) = -1
  rw [Nat.zero_and]
  rfl

theorem fgetc_last (f : FILE) (c : Byte) (h : f.rest = [c]) :
    fgetc f = ((c.val : Int), f.advance 1) ∧ fgetc (f.advance 1) = (EOF, f.atEnd) ∧
      fgetc f.atEnd = (EOF, f.atEnd) := by
  obtain ⟨h1, h2⟩ := fgetc_of_rest h
  have h3 : f.atEnd.rest = [] := h2
  exact ⟨h1, fgetc_of_rest_nil h2, @fgetc_of_rest_nil f.atEnd h3⟩

/-- What a v1 tick does with a dangling last byte `c`, for every `c`: the codes
0x00 and 0x01 return the interval 4294967295 and leave `running` as it was, the
codes 0x02 and 0x03 stop without a write, the code 0x04 and every other code
emit a write holding `EOF` results before they stop. -/
theorem dro1_dangling_cases (td : timer_data) (fuel : Nat) (c : Byte)
    (hrun : td.running ≠ 0) (he : td.fstream.eof = false) (h : td.fstream.rest = [c]) :
    (c.val = 0 ∨ c.val = 1 →
      Dro1TimerCallback (fuel + 2) td
        = some (4294967295, { td with fstream := td.fstream.atEnd }, [])) ∧
    (c.val = 2 →
      Dro1TimerCallback (fuel + 2) td
        = some (0, { td with fstream := td.fstream.atEnd, running := 0, dro1Bank := 0 }, [])) ∧
    (c.val = 3 →
      Dro1TimerCallback (fuel + 2) td
        = some (0, { td with fstream := td.fstream.atEnd, running := 0, dro1Bank := 1 }, [])) ∧
    (c.val = 4 →
      Dro1TimerCallback (fuel + 2) td
        = some (0, { td with fstream := td.fstream.atEnd, running := 0 },
            [eofWrite td.dro1Bank])) ∧
    (4 < c.val →
      Dro1TimerCallback (fuel + 2) td
        = some (0, { td with fstream := td.fstream.atEnd, running := 0 },
            [⟨td.dro1Bank, c.val, 4294967295⟩])) := by
  obtain ⟨h1, h2, h3⟩ := fgetc_last td.fstream c h
  have hstop : ∀ (t : timer_data) (log : List RegWrite), t.fstream.eof = true →
      Dro1Loop (fuel + 1) t log = some (0, { t with running := 0 }, log) := by
    intro t log ht
    simp [Dro1Loop, dro1Body_stop t log ht]
  refine ⟨fun hc => ?_, fun hc => ?_, fun hc => ?_, fun hc => ?_, fun hc => ?_⟩
  · rcases hc with hc | hc
    · simp [Dro1TimerCallback, hrun, Dro1Loop, Dro1Body, feof, he, h1, h2, hc, toUint32_eof]
    · simp [Dro1TimerCallback, hrun, Dro1Loop, Dro1Body, feof, he, h1, h2, h3, hc,
        lor_eof_shift]
      decide
  · have hb : Dro1Body td [] = .next { td with fstream := td.fstream.atEnd, dro1Bank := 0 } [] := by
      simp [Dro1Body, feof, he, h1, h2, hc]
    simp only [Dro1TimerCallback, hrun, if_false]
    rw [Dro1Loop, hb]
    exact hstop _ _ rfl
  · have hb : Dro1Body td [] = .next { td with fstream := td.fstream.atEnd, dro1Bank := 1 } [] := by
      simp [Dro1Body, feof, he, h1, h2, hc]
    simp only [Dro1TimerCallback, hrun, if_false]
    rw [Dro1Loop, hb]
    exact hstop _ _ rfl
  · have hb : Dro1Body td [] = .next { td with fstream := td.fstream.atEnd }
        [eofWrite td.dro1Bank] := by
      simp [Dro1Body, feof, he, h1, h2, h3, hc, toUint32_eof, WriteReg, eofWrite]
    simp only [Dro1TimerCallback, hrun, if_false]
    rw [Dro1Loop, hb]
    exact hstop _ _ rfl
  · have e0 : ¬ ((c.val : Int) = 0) := by omega
    have e1 : ¬ ((c.val : Int) = 1) := by omega
    have e2 : ¬ ((c.val : Int) = 2) := by omega
    have e3 : ¬ ((c.val : Int) = 3) := by omega
    have e4 : ¬ ((c.val : Int) = 4) := by omega
    have hb : Dro1Body td [] = .next { td with fstream := td.fstream.atEnd }
        [⟨td.dro1Bank, c.val, 4294967295⟩] := by
      simp [Dro1Body, feof, he, h1, h2, e0, e1, e2, e3, e4, toUint32_eof, toUint32_byte,
        WriteReg]
    simp only [Dro1TimerCallback, hrun, if_false]
    rw [Dro1Loop, hb]
    exact hstop _ _ rfl

/-! ## Firing on a stopped session -/

theorem dro2Body_running (td : timer_data) (log : List RegWrite) (p : Pass)
    (h : Dro2Body td log = some p) :
    p.data.running = td.running ∨ (p.data.running = 0 ∧ p.data.fstream.eof = true) := by
  unfold Dro2Body at h
  by_cases he : feof td.fstream = true
  · rw [if_pos he] at h
    cases h
    right
    exact ⟨rfl, he⟩
  · rw [if_neg he] at h
    simp only at h
    by_cases h1 : (fgetc td.fstream).1 = (td.dro2Header.shortDelayCode.val : Int)
    · rw [if_pos h1] at h
      cases h
      left; rfl
    · rw [if_neg h1] at h
      by_cases h2 : (fgetc td.fstream).1 = (td.dro2Header.longDelayCode.val : Int)
      · rw [if_pos h2] at h
        cases h
        left; rfl
      · rw [if_neg h2] at h
        split at h
        · cases h
        · cases h
          left; rfl

theorem dro2Loop_running (fuel : Nat) : ∀ (td : timer_data) (log : List RegWrite) (r : Tick),
    Dro2Loop fuel td log = some r →
    r.2.1.running = td.running ∨ (r.2.1.running = 0 ∧ r.2.1.fstream.eof = true) := by
  induction fuel with
  | zero => intro td log r h; simp [Dro2Loop] at h
  | succ n ih =>
    intro td log r h
    unfold Dro2Loop at h
    cases hB : Dro2Body td log with
    | none => simp [hB] at h
    | some p =>
      have hp := dro2Body_running td log p hB
      cases p with
      | ret d t l =>
        simp only [hB, Option.some.injEq] at h
        rw [← h]
        exact hp
      | next t l =>
        simp only [hB] at h
        rcases ih t l r h with h1 | h1
        · rcases hp with hp | hp
          · left; rw [h1]; exact hp
          · have ht : t.fstream.eof = true := hp.2
            cases n with
            | zero => simp [Dro2Loop] at h
            | succ m =>
              rw [Dro2Loop, dro2Body_stop t l ht] at h
              simp only [Option.some.injEq] at h
              rw [← h]
              right
              exact ⟨rfl, ht⟩
        · right; exact h1

theorem dro2_stopped_noop (td : timer_data) (fuel : Nat) (hrun : td.running = 0)
    (he : td.fstream.eof = true) :
    Dro2TimerCallback (fuel + 1) td = some (0, td, []) := by
  rw [Dro2TimerCallback, Dro2Loop, dro2Body_stop td [] he]
  simp only
  rw [stopped_eq td hrun]

theorem PlayFile_dro2_running (bytes : List Byte) (td0 td : timer_data)
    (h : PlayFile bytes td0 = .timer .dro2 td) : td.running = 1 := by
  unfold PlayFile at h
  simp only at h
  repeat' split at h
  all_goals try (simp at h; done)
  injection h with _ htd
  rw [← htd]

/-- C17, amended: a firing of `Dro1TimerCallback` on any session data with
`running = 0` reads nothing, writes nothing, leaves the data unchanged and
returns 0. `Dro2TimerCallback` does the same on session data with `running = 0`
whose end-of-file indicator is set, and these are all the stopped v2 sessions
the program produces: `PlayFile` arms the v2 timer with `running = 1`, and a
tick keeps the property that `running = 0` only with the indicator set. -/
theorem stopped_firing_noop (td : timer_data) :
    (∀ fuel, td.running = 0 → Dro1TimerCallback fuel td = some (0, td, [])) ∧
    (∀ fuel, td.running = 0 → td.fstream.eof = true →
      Dro2TimerCallback (fuel + 1) td = some (0, td, [])) ∧
    (∀ bytes td0, PlayFile bytes td0 = .timer .dro2 td → td.running = 1) ∧
    (∀ fuel r, Dro2TimerCallback fuel td = some r →
      (td.running = 0 → td.fstream.eof = true) →
      (r.2.1.running = 0 → r.2.1.fstream.eof = true)) := by
  refine ⟨fun fuel h => dro1_stopped_noop td fuel h,
    fun fuel h he => dro2_stopped_noop td fuel h he,
    fun bytes td0 h => PlayFile_dro2_running bytes td0 td h, ?_⟩
  intro fuel r h inv hr
  rcases dro2Loop_running fuel td [] r h with h1 | h1
  · have he := inv (h1 ▸ hr)
    cases fuel with
    | zero => simp [Dro2TimerCallback, Dro2Loop] at h
    | succ m =>
      rw [Dro2TimerCallback, Dro2Loop, dro2Body_stop td [] he] at h
      simp only [Option.some.injEq] at h
      rw [← h]
      exact he
  · exact h1.2

theorem stopped_firing_noop_witness :
    Dro1TimerCallback 0
        { dro1Session [0x02, 0x11] sampleData with running := 0 }
      = some (0, { dro1Session [0x02, 0x11] sampleData with running := 0 }, []) ∧
    Dro2TimerCallback 1
        { codemapOnlySession with
          fstream := { data := codemapOnlyFile, pos := 29, eof := true }, running := 0 }
      = some (0, { codemapOnlySession with
                    fstream := { data := codemapOnlyFile, pos := 29, eof := true }
                    running := 0 }, []) :=
  ⟨(stopped_firing_noop { dro1Session [0x02, 0x11] sampleData with running := 0 }).1 0 rfl,
   (stopped_firing_noop
      { codemapOnlySession with
        fstream := { data := codemapOnlyFile, pos := 29, eof := true }, running := 0 }).2.1
      0 rfl rfl⟩

end Droplay
